import Mathlib

/-!
A shallow embedding of `monthly_finance_app.py` (classes `FinanceData` and
`MonthlyFinanceTracker`) and proofs about its data-collection, export,
analysis and round-trip behaviour.

Modelling conventions:

* Python `float` values are modelled as rationals (`ℚ`); the program only
  moves them around, so no floating-point rounding is observable in the
  properties below.
* A value held by Python (a CSV cell, or one line of interactive input after
  `input()` returns) is a `Cell`: either a token that `float()` parses, kept
  at its numeric value (`Cell.num`), or a token that `float()` rejects
  (`Cell.str`).  The string-to-float mechanics themselves are the library
  boundary (spec declares raw CSV read/write mechanics out of scope).
* Exceptions are modelled with `Except`/`Option`; an `Except.error` carries
  the partially-mutated object state at the moment the exception escapes,
  because `collect_monthly_data` mutates `self` field by field.
-/

/-- A Python value as it appears in this program: either a token `float()`
rejects (kept as a string) or a token `float()` accepts, kept at its parsed
numeric value. -/
inductive Cell where
  | str (s : String)
  | num (q : ℚ)
deriving DecidableEq, Repr

/-- `float(cell)`: succeeds exactly on numeric tokens. -/
def pyFloat : Cell → Option ℚ
  | .num q => some q
  | .str _ => none

/-- One `csv.DictReader` row: association list from column name to cell, in
header order (Python dicts preserve insertion order). -/
abbrev Row := List (String × Cell)

/-- Python `row[key]`: first entry with the given key; `none` models the
`KeyError` raise. -/
def pyLookup (r : Row) (k : String) : Option Cell :=
  List.lookup k r

/-- Character-list version of Python `startswith` used to build substring
containment. -/
def listHasPfx : List Char → List Char → Bool
  | [], _ => true
  | _ :: _, [] => false
  | p :: ps, c :: cs => p == c && listHasPfx ps cs

/-- Character-list version of Python substring containment. -/
def listHasSub (pat : List Char) : List Char → Bool
  | [] => listHasPfx pat []
  | c :: cs => listHasPfx pat (c :: cs) || listHasSub pat cs

/-- Python `pat in s` on strings (substring containment). -/
def strContains (s pat : String) : Bool :=
  listHasSub pat.toList s.toList

/-- Sequential `Option`-valued map: stops at the first failure, like a Python
comprehension raising at the first bad element. -/
def mapOpt (f : α → Option β) : List α → Option (List β)
  | [] => some []
  | a :: as =>
    match f a, mapOpt f as with
    | some b, some bs => some (b :: bs)
    | _, _ => none

/-- `{k: float(row[k]) for k in row.keys() if p k}` — the dict-comprehension
shape used twice in `collect_monthly_data` (line 38 and line 39). -/
def comprehend (p : String → Bool) (r : Row) : Option (List (String × ℚ)) :=
  mapOpt (fun k => Option.map (fun q => (k, q)) ((pyLookup r k).bind pyFloat))
    ((r.map Prod.fst).filter p)

/-- Line 38: every column whose name is neither `Month` nor `Budget`. -/
def expensesOf (r : Row) : Option (List (String × ℚ)) :=
  comprehend (fun k => !(k == "Month") && !(k == "Budget")) r

/-- Line 39: every column whose name contains the substring `Income`. -/
def incomesOf (r : Row) : Option (List (String × ℚ)) :=
  comprehend (fun k => strContains k "Income") r

/-- The Record Store: the four parallel collections of class `FinanceData`. -/
structure FinanceData where
  months : List Cell
  budgets_data : List ℚ
  expenses_data : List (List (String × ℚ))
  incomes_data : List (List (String × ℚ))
deriving DecidableEq, Repr

/-- `FinanceData.__init__`: all four collections empty. -/
def FinanceData.init : FinanceData := ⟨[], [], [], []⟩

/-- One monthly record as produced by a successful iteration of the CSV loop
(month cell, budget, expenses dict, incomes dict). -/
abbrev MonthRec := Cell × ℚ × List (String × ℚ) × List (String × ℚ)

/-- Append one complete monthly record to all four collections. -/
def pushRec (st : FinanceData) (rec : MonthRec) : FinanceData :=
  ⟨st.months ++ [rec.1], st.budgets_data ++ [rec.2.1],
   st.expenses_data ++ [rec.2.2.1], st.incomes_data ++ [rec.2.2.2]⟩

/-- Lines 34–42, one iteration of `for row in reader`: append the month, then
the parsed budget, then the two comprehensions.  An `error` result carries the
partially-mutated store at the point the uncaught `KeyError`/`ValueError`
escapes (appends happen one field at a time). -/
def processRow (st : FinanceData) (r : Row) : Except FinanceData FinanceData :=
  match pyLookup r "Month" with
  | none => .error st
  | some m =>
    let st1 : FinanceData := { st with months := st.months ++ [m] }
    match (pyLookup r "Budget").bind pyFloat with
    | none => .error st1
    | some b =>
      let st2 : FinanceData := { st1 with budgets_data := st1.budgets_data ++ [b] }
      match expensesOf r with
      | none => .error st2
      | some es =>
        match incomesOf r with
        | none => .error st2
        | some inc =>
          .ok { st2 with
                expenses_data := st2.expenses_data ++ [es],
                incomes_data := st2.incomes_data ++ [inc] }

/-- The whole `for row in reader` loop. -/
def processRows (st : FinanceData) : List Row → Except FinanceData FinanceData
  | [] => .ok st
  | r :: rs =>
    match processRow st r with
    | .error st' => .error st'
    | .ok st' => processRows st' rs

/-- What the file system / `csv` module delivers for one import attempt:
the file is missing (`FileNotFoundError`), or the reader yields a list of
complete rows; `err = true` means the reader raises `csv.Error` after those
rows (a structural error is detected while iterating). -/
inductive ReadResult where
  | notFound
  | rows (rs : List Row) (err : Bool)

/-- Lines 30–46, `collect_monthly_data` with `input_csv` set.
`FileNotFoundError` and `csv.Error` are caught (print and return normally);
`KeyError`/`ValueError` from inside the loop are not caught and escape. -/
def FinanceData.collect_monthly_data_csv (st : FinanceData) (input : ReadResult) :
    Except FinanceData FinanceData :=
  match input with
  | .notFound => .ok st
  | .rows rs _err =>
    match processRows st rs with
    | .error st' => .error st'
    | .ok st' => .ok st'

/-- Lines 66–78, `_get_input`: keep reading tokens until one parses as a
non-negative number; return it with the unconsumed remainder of the input
stream.  `none` models `input()` raising `EOFError` on an exhausted stream. -/
def get_input : List Cell → Option (ℚ × List Cell)
  | [] => none
  | c :: rest =>
    match pyFloat c with
    | none => get_input rest
    | some v => if 0 ≤ v then some (v, rest) else get_input rest

/-- Lines 48–64, one iteration of the manual loop for month number `m`:
append the label, then the budget, then (after four more prompts) the fixed
expense and income dicts.  An `error` carries the partial state at `EOFError`. -/
def collectMonth (st : FinanceData) (m : Nat) (stream : List Cell) :
    Except FinanceData (FinanceData × List Cell) :=
  let st1 : FinanceData := { st with months := st.months ++ [Cell.str (toString m ++ "/2023")] }
  match get_input stream with
  | none => .error st1
  | some (b, s1) =>
    let st2 : FinanceData := { st1 with budgets_data := st1.budgets_data ++ [b] }
    match get_input s1 with
    | none => .error st2
    | some (ex, s2) =>
      match get_input s2 with
      | none => .error st2
      | some (ut, s3) =>
        match get_input s3 with
        | none => .error st2
        | some (sal, s4) =>
          match get_input s4 with
          | none => .error st2
          | some (inv, s5) =>
            .ok ({ st2 with
                   expenses_data := st2.expenses_data ++ [[("Extras", ex), ("Utilities", ut)]],
                   incomes_data := st2.incomes_data ++ [[("Salary", sal), ("Investments", inv)]] },
                 s5)

/-- The manual loop over a list of month numbers. -/
def collectMonths (st : FinanceData) (ms : List Nat) (stream : List Cell) :
    Except FinanceData (FinanceData × List Cell) :=
  match ms with
  | [] => .ok (st, stream)
  | m :: rest =>
    match collectMonth st m stream with
    | .error st' => .error st'
    | .ok (st', s') => collectMonths st' rest s'

/-- Lines 47–64, `collect_monthly_data` with no CSV: `for month in range(1, 13)`. -/
def FinanceData.collect_monthly_data_manual (st : FinanceData) (stream : List Cell) :
    Except FinanceData (FinanceData × List Cell) :=
  collectMonths st (List.range' 1 12) stream

/-- The two uncaught exception kinds of the export/analysis paths. -/
inductive PyError where
  | indexError
  | keyError
deriving DecidableEq, Repr

/-- A budget list becomes a column of numeric cells. -/
def colOfRats (qs : List ℚ) : List Cell := qs.map Cell.num

/-- Python `data[k] = v` on an insertion-ordered dict: overwrite in place if
the key exists, else append. -/
def dictSet (d : List (String × α)) (k : String) (v : α) : List (String × α) :=
  if d.any (fun kv => kv.1 == k) then
    d.map (fun kv => if kv.1 == k then (k, v) else kv)
  else
    d ++ [(k, v)]

/-- `[ms[k] for ms in records]`: one column of the flat table; `none` models
the `KeyError` when some month lacks the key. -/
def colFor (k : String) (ms : List (List (String × ℚ))) : Option (List Cell) :=
  mapOpt (fun es => Option.map Cell.num (List.lookup k es)) ms

/-- The `for key in record0.keys(): data[key] = [...]` loop. -/
def foldDict (d : List (String × List Cell)) (ks : List String)
    (ms : List (List (String × ℚ))) : Option (List (String × List Cell)) :=
  match ks with
  | [] => some d
  | k :: rest =>
    match colFor k ms with
    | none => none
    | some col => foldDict (dictSet d k col) rest ms

/-- Lines 129–138 of `save_data`: build the `data` dict.  `indexError` models
`expenses_data[0]` / `incomes_data[0]` on an empty store, `keyError` models a
later month missing a record-0 key. -/
def save_data_table (fd : FinanceData) : Except PyError (List (String × List Cell)) :=
  let d0 : List (String × List Cell) :=
    [("Month", fd.months), ("Budget", colOfRats fd.budgets_data)]
  match fd.expenses_data with
  | [] => .error .indexError
  | e0 :: _ =>
    match foldDict d0 (e0.map Prod.fst) fd.expenses_data with
    | none => .error .keyError
    | some d1 =>
      match fd.incomes_data with
      | [] => .error .indexError
      | i0 :: _ =>
        match foldDict d1 (i0.map Prod.fst) fd.incomes_data with
        | none => .error .keyError
        | some d2 => .ok d2

/-- Lines 154–165, `to_dataframe`: builds the identical `data` dict (the
DataFrame keeps the dict's columns in insertion order). -/
def FinanceData.to_dataframe (fd : FinanceData) : Except PyError (List (String × List Cell)) :=
  let d0 : List (String × List Cell) :=
    [("Month", fd.months), ("Budget", colOfRats fd.budgets_data)]
  match fd.expenses_data with
  | [] => .error .indexError
  | e0 :: _ =>
    match foldDict d0 (e0.map Prod.fst) fd.expenses_data with
    | none => .error .keyError
    | some d1 =>
      match fd.incomes_data with
      | [] => .error .indexError
      | i0 :: _ =>
        match foldDict d1 (i0.map Prod.fst) fd.incomes_data with
        | none => .error .keyError
        | some d2 => .ok d2

/-- Length of the shortest column (`zip` truncates to it). -/
def minLen : List (List Cell) → Nat
  | [] => 0
  | [c] => c.length
  | c :: cs => min c.length (minLen cs)

/-- Python `zip(*columns)`: transpose, truncated to the shortest column. -/
def zipCols (cols : List (List Cell)) : List (List Cell) :=
  match cols with
  | [] => []
  | _ :: _ =>
    (List.range (minLen cols)).map (fun i => cols.map (fun c => c.getD i (Cell.str "")))

/-- Lines 120–145, `save_data`: the header row and the data rows written to
the output CSV (the `csv.writer` string mechanics are the library boundary). -/
def save_data (fd : FinanceData) : Except PyError (List String × List (List Cell)) :=
  (save_data_table fd).map (fun d => (d.map Prod.fst, zipCols (d.map Prod.snd)))

/-- `csv.DictReader` over a written file: each data row zipped with the header. -/
def rowsOfFile (f : List String × List (List Cell)) : List Row :=
  f.2.map (fun cells => f.1.zip cells)

/-- Re-import a saved file into a fresh tracker (the round-trip read half). -/
def reimport (f : List String × List (List Cell)) : Except FinanceData FinanceData :=
  FinanceData.collect_monthly_data_csv FinanceData.init (.rows (rowsOfFile f) false)

/-- Number of occurrences of `v` in `xs` (the value counting underlying the
statistics library's mode). -/
def countQ (xs : List ℚ) (v : ℚ) : Nat :=
  (xs.filter (fun x => decide (x = v))).length

/-- The largest occurrence count in `xs`. -/
def maxCount (xs : List ℚ) : Nat :=
  (xs.map (countQ xs)).foldr max 0

/-- Model of the external statistics primitive `Series.mode` (pandas), per its
documented semantics: all values attaining the maximal occurrence count, in
ascending order; empty only for an empty column.  In particular, for a column
of pairwise-distinct values every value is a mode. -/
def pandasMode (xs : List ℚ) : List ℚ :=
  List.insertionSort (fun a b => a ≤ b)
    ((xs.dedup).filter (fun v => decide (countQ xs v = maxCount xs)))

/-- Line 178: `mode[0] if not mode.empty else 'No mode'`; `none` is the
`'No mode'` branch. -/
def modeReport (xs : List ℚ) : Option ℚ :=
  match pandasMode xs with
  | [] => none
  | m :: _ => some m

/-- Numeric content of a column (every analysed column of this program is
built from `Cell.num` cells). -/
def ratsOf (cells : List Cell) : List ℚ :=
  cells.filterMap (fun c => match c with | .num q => some q | .str _ => none)

/-- Lines 167–178, the mode line of `analysis`: for every column of the
DataFrame except `Month`, the reported mode (`none` = `'No mode'`). -/
def analysisModes (fd : FinanceData) : Except PyError (List (String × Option ℚ)) :=
  (fd.to_dataframe).map (fun d =>
    (d.filter (fun kv => !(kv.1 == "Month"))).map
      (fun kv => (kv.1, modeReport (ratsOf kv.2))))

/-- The §3 length invariant: one record per month across all four collections. -/
def EqLens (fd : FinanceData) : Prop :=
  fd.budgets_data.length = fd.months.length ∧
  fd.expenses_data.length = fd.months.length ∧
  fd.incomes_data.length = fd.months.length

/-- The record produced by one successful CSV-loop iteration, as a pure
function of the row (used to characterise `processRow`). -/
def rowRecord (r : Row) : Option MonthRec :=
  match pyLookup r "Month" with
  | none => none
  | some m =>
    match (pyLookup r "Budget").bind pyFloat with
    | none => none
    | some b =>
      match expensesOf r with
      | none => none
      | some es =>
        match incomesOf r with
        | none => none
        | some inc => some (m, b, es, inc)

/-- A numeric cell. -/
def isNum : Cell → Bool
  | .num _ => true
  | .str _ => false

/-- A value accepted by `_get_input` from a given input stream: non-negative
and the parse of some token of the stream. -/
def ValidVal (stream : List Cell) (v : ℚ) : Prop :=
  0 ≤ v ∧ ∃ c ∈ stream, pyFloat c = some v

/-- A monthly record as the interactive loop builds it: fixed expense
categories `Extras`, `Utilities`, fixed income sources `Salary`,
`Investments`, every stored value accepted from the stream. -/
def GoodRec (stream : List Cell) (rec : MonthRec) : Prop :=
  ValidVal stream rec.2.1 ∧
  ∃ ex ut sal inv,
    rec.2.2.1 = [("Extras", ex), ("Utilities", ut)] ∧
    rec.2.2.2 = [("Salary", sal), ("Investments", inv)] ∧
    ValidVal stream ex ∧ ValidVal stream ut ∧ ValidVal stream sal ∧ ValidVal stream inv

/-- Invariant of the tail of the `data` dict built by `save_data` /
`to_dataframe` past its two seed entries: every further column is keyed by a
name other than `Month` and `Budget`, has full height `L`, and holds numeric
cells only. -/
def TailOK (L : Nat) (t : List (String × List Cell)) : Prop :=
  ∀ kc ∈ t, kc.1 ≠ "Month" ∧ kc.1 ≠ "Budget" ∧ kc.2.length = L ∧ ∀ c ∈ kc.2, isNum c = true

/-- The sequence of the first `n` values `_get_input` accepts from the input
stream, in prompt order, with the unconsumed remainder; `none` if the stream
runs out first.  This is what the interactive loop consumes: five prompts per
month, so a full run accepts exactly `takeAccepted 60`. -/
def takeAccepted : Nat → List Cell → Option (List ℚ × List Cell)
  | 0, s => some ([], s)
  | n + 1, s =>
    match get_input s with
    | none => none
    | some (v, s') =>
      match takeAccepted n s' with
      | none => none
      | some p => some (v :: p.1, p.2)

/-- The records the interactive loop builds from its month numbers and the
accepted values in prompt order: for each month, budget, then expenses
`Extras`, `Utilities`, then incomes `Salary`, `Investments` (lines 51–60). -/
def recsOfVals : List Nat → List ℚ → List MonthRec
  | [], _ => []
  | m :: ms, b :: ex :: ut :: sal :: inv :: rest =>
    (Cell.str (toString m ++ "/2023"), b, [("Extras", ex), ("Utilities", ut)],
      [("Salary", sal), ("Investments", inv)]) :: recsOfVals ms rest
  | _ :: _, _ => []

theorem mapOpt_some_length {f : α → Option β} :
    ∀ {l : List α} {bs : List β}, mapOpt f l = some bs → bs.length = l.length := by
  intro l
  induction l with
  | nil => intro bs h; simp [mapOpt] at h; simp [← h]
  | cons a as ih =>
    intro bs h
    cases hfa : f a with
    | none => simp [mapOpt, hfa] at h
    | some b =>
      cases hrest : mapOpt f as with
      | none => simp [mapOpt, hfa, hrest] at h
      | some bs' =>
        simp [mapOpt, hfa, hrest] at h
        subst h
        simp [ih hrest]

theorem mapOpt_some_get {f : α → Option β} :
    ∀ {l : List α} {bs : List β}, mapOpt f l = some bs →
      ∀ (i : Nat) (a : α), l[i]? = some a → ∃ b, bs[i]? = some b ∧ f a = some b := by
  intro l
  induction l with
  | nil => intro bs h i a hi; simp at hi
  | cons x xs ih =>
    intro bs h i a hi
    cases hfa : f x with
    | none => simp [mapOpt, hfa] at h
    | some b =>
      cases hrest : mapOpt f xs with
      | none => simp [mapOpt, hfa, hrest] at h
      | some bs' =>
        simp [mapOpt, hfa, hrest] at h
        subst h
        cases i with
        | zero => simp at hi; subst hi; exact ⟨b, by simp, hfa⟩
        | succ n =>
          simp at hi
          obtain ⟨b', hb', hfb'⟩ := ih hrest n a hi
          exact ⟨b', by simpa using hb', hfb'⟩

theorem mapOpt_some_mem {f : α → Option β} :
    ∀ {l : List α} {bs : List β}, mapOpt f l = some bs →
      ∀ b ∈ bs, ∃ a ∈ l, f a = some b := by
  intro l
  induction l with
  | nil => intro bs h b hb; simp [mapOpt] at h; subst h; simp at hb
  | cons x xs ih =>
    intro bs h b hb
    cases hfa : f x with
    | none => simp [mapOpt, hfa] at h
    | some b0 =>
      cases hrest : mapOpt f xs with
      | none => simp [mapOpt, hfa, hrest] at h
      | some bs' =>
        simp [mapOpt, hfa, hrest] at h
        subst h
        rcases List.mem_cons.mp hb with h1 | h2
        · exact ⟨x, by simp, by rw [hfa, h1]⟩
        · obtain ⟨a, ha, hfa'⟩ := ih hrest b h2
          exact ⟨a, by simp [ha], hfa'⟩

theorem mapOpt_some_of_all {f : α → Option β} :
    ∀ {l : List α}, (∀ a ∈ l, (f a).isSome) → ∃ bs, mapOpt f l = some bs := by
  intro l
  induction l with
  | nil => intro _; exact ⟨[], rfl⟩
  | cons x xs ih =>
    intro h
    obtain ⟨b, hb⟩ := Option.isSome_iff_exists.mp (h x (by simp))
    obtain ⟨bs, hbs⟩ := ih (fun a ha => h a (by simp [ha]))
    exact ⟨b :: bs, by simp [mapOpt, hb, hbs]⟩

theorem mapOpt_map_eq {f : α → Option β} {g : β → α}
    (hf : ∀ a b, f a = some b → g b = a) :
    ∀ {l : List α} {bs : List β}, mapOpt f l = some bs → bs.map g = l := by
  intro l
  induction l with
  | nil => intro bs h; simp [mapOpt] at h; simp [← h]
  | cons x xs ih =>
    intro bs h
    cases hfa : f x with
    | none => simp [mapOpt, hfa] at h
    | some b =>
      cases hrest : mapOpt f xs with
      | none => simp [mapOpt, hfa, hrest] at h
      | some bs' =>
        simp [mapOpt, hfa, hrest] at h
        subst h
        simp [hf x b hfa, ih hrest]

theorem mapOpt_filter {f : α → Option β} {q : α → Bool} {qb : β → Bool}
    (hsel : ∀ a b, f a = some b → qb b = q a) :
    ∀ {l : List α} {bs : List β}, mapOpt f l = some bs →
      mapOpt f (l.filter q) = some (bs.filter qb) := by
  intro l
  induction l with
  | nil => intro bs h; simp [mapOpt] at h; subst h; simp [mapOpt]
  | cons x xs ih =>
    intro bs h
    cases hfa : f x with
    | none => simp [mapOpt, hfa] at h
    | some b =>
      cases hrest : mapOpt f xs with
      | none => simp [mapOpt, hfa, hrest] at h
      | some bs' =>
        simp [mapOpt, hfa, hrest] at h
        subst h
        have hq := hsel x b hfa
        cases hqx : q x with
        | true =>
          rw [List.filter_cons_of_pos (by simp [hqx]),
              List.filter_cons_of_pos (by simp [hq, hqx])]
          simp [mapOpt, hfa, ih hrest]
        | false =>
          rw [List.filter_cons_of_neg (by simp [hqx]),
              List.filter_cons_of_neg (by simp [hq, hqx])]
          exact ih hrest

theorem comprehend_keys {p : String → Bool} {r : Row} {es : List (String × ℚ)}
    (h : comprehend p r = some es) :
    es.map Prod.fst = (r.map Prod.fst).filter p := by
  refine mapOpt_map_eq ?_ h
  intro k b hb
  cases hq : (pyLookup r k).bind pyFloat with
  | none => rw [hq] at hb; simp at hb
  | some q => rw [hq] at hb; simp at hb; rw [← hb]

theorem comprehend_vals {p : String → Bool} {r : Row} {es : List (String × ℚ)}
    (h : comprehend p r = some es) :
    ∀ kv ∈ es, (pyLookup r kv.1).bind pyFloat = some kv.2 := by
  intro kv hkv
  obtain ⟨k, _, hfk⟩ := mapOpt_some_mem h kv hkv
  cases hq : (pyLookup r k).bind pyFloat with
  | none => rw [hq] at hfk; simp at hfk
  | some q =>
    rw [hq] at hfk
    simp at hfk
    rw [← hfk]
    simpa using hq

theorem filter_of_imp {p q : α → Bool} (himp : ∀ a, q a = true → p a = true) :
    ∀ l : List α, l.filter q = (l.filter p).filter q := by
  intro l
  induction l with
  | nil => simp
  | cons a as ih =>
    cases hq : q a with
    | true =>
      rw [List.filter_cons_of_pos hq, List.filter_cons_of_pos (himp a hq),
        List.filter_cons_of_pos hq, ih]
    | false =>
      cases hp : p a with
      | true =>
        rw [List.filter_cons_of_neg (by simp [hq]), List.filter_cons_of_pos hp,
          List.filter_cons_of_neg (by simp [hq]), ih]
      | false =>
        rw [List.filter_cons_of_neg (by simp [hq]), List.filter_cons_of_neg (by simp [hp]), ih]

theorem comprehend_sub {p q : String → Bool} {r : Row} {es : List (String × ℚ)}
    (himp : ∀ k, q k = true → p k = true) (h : comprehend p r = some es) :
    comprehend q r = some (es.filter (fun kv => q kv.1)) := by
  unfold comprehend at h ⊢
  rw [filter_of_imp himp (r.map Prod.fst)]
  refine mapOpt_filter ?_ h
  intro k b hb
  cases hq : (pyLookup r k).bind pyFloat with
  | none => rw [hq] at hb; simp at hb
  | some v => rw [hq] at hb; simp at hb; rw [← hb]

theorem processRow_of_record {r : Row} {rec : MonthRec} {st : FinanceData}
    (h : rowRecord r = some rec) :
    processRow st r = .ok (pushRec st rec) := by
  cases hm : pyLookup r "Month" with
  | none => simp [rowRecord, hm] at h
  | some m =>
    cases hb : (pyLookup r "Budget").bind pyFloat with
    | none => simp [rowRecord, hm, hb] at h
    | some b =>
      cases he : expensesOf r with
      | none => simp [rowRecord, hm, hb, he] at h
      | some es =>
        cases hi : incomesOf r with
        | none => simp [rowRecord, hm, hb, he, hi] at h
        | some inc =>
          simp [rowRecord, hm, hb, he, hi] at h
          subst h
          simp [processRow, hm, hb, he, hi, pushRec]

theorem processRow_ok {r : Row} {st st' : FinanceData}
    (h : processRow st r = .ok st') :
    ∃ rec, rowRecord r = some rec ∧ st' = pushRec st rec := by
  cases hm : pyLookup r "Month" with
  | none => simp [processRow, hm] at h
  | some m =>
    cases hb : (pyLookup r "Budget").bind pyFloat with
    | none => simp [processRow, hm, hb] at h
    | some b =>
      cases he : expensesOf r with
      | none => simp [processRow, hm, hb, he] at h
      | some es =>
        cases hi : incomesOf r with
        | none => simp [processRow, hm, hb, he, hi] at h
        | some inc =>
          simp [processRow, hm, hb, he, hi] at h
          exact ⟨(m, b, es, inc), by simp [rowRecord, hm, hb, he, hi],
            by simp [pushRec, ← h]⟩

theorem processRows_ok_iff : ∀ {rs : List Row} {st st' : FinanceData},
    processRows st rs = .ok st' ↔
      ∃ recs, mapOpt rowRecord rs = some recs ∧ st' = recs.foldl pushRec st := by
  intro rs
  induction rs with
  | nil =>
    intro st st'
    constructor
    · intro h
      simp [processRows] at h
      exact ⟨[], rfl, by simp [← h]⟩
    · rintro ⟨recs, hrecs, hfold⟩
      simp [mapOpt] at hrecs
      subst hrecs
      simp [processRows, hfold]
  | cons r rs ih =>
    intro st st'
    constructor
    · intro h
      cases hpr : processRow st r with
      | error e => simp [processRows, hpr] at h
      | ok st1 =>
        simp only [processRows, hpr] at h
        obtain ⟨rec, hrec, hst1⟩ := processRow_ok hpr
        obtain ⟨recs, hrecs, hfold⟩ := ih.mp h
        exact ⟨rec :: recs, by simp [mapOpt, hrec, hrecs],
          by simp [hfold, hst1]⟩
    · rintro ⟨recs, hrecs, hfold⟩
      cases hrr : rowRecord r with
      | none => simp [mapOpt, hrr] at hrecs
      | some rec =>
        cases hrest : mapOpt rowRecord rs with
        | none => simp [mapOpt, hrr, hrest] at hrecs
        | some recs' =>
          simp [mapOpt, hrr, hrest] at hrecs
          subst hrecs
          simp only [processRows, processRow_of_record hrr]
          exact ih.mpr ⟨recs', hrest, by simpa using hfold⟩

theorem foldl_pushRec_fields (recs : List MonthRec) : ∀ st : FinanceData,
    (recs.foldl pushRec st).months = st.months ++ recs.map (fun rec => rec.1) ∧
    (recs.foldl pushRec st).budgets_data = st.budgets_data ++ recs.map (fun rec => rec.2.1) ∧
    (recs.foldl pushRec st).expenses_data = st.expenses_data ++ recs.map (fun rec => rec.2.2.1) ∧
    (recs.foldl pushRec st).incomes_data = st.incomes_data ++ recs.map (fun rec => rec.2.2.2) := by
  induction recs with
  | nil => intro st; simp
  | cons rec recs ih =>
    intro st
    obtain ⟨h1, h2, h3, h4⟩ := ih (pushRec st rec)
    simp only [pushRec] at h1 h2 h3 h4
    simp only [List.foldl_cons, List.map_cons, pushRec]
    refine ⟨?_, ?_, ?_, ?_⟩ <;> simp [h1, h2, h3, h4]

theorem get_input_spec : ∀ {s : List Cell} {v : ℚ} {rest : List Cell},
    get_input s = some (v, rest) →
      0 ≤ v ∧ (∃ c ∈ s, pyFloat c = some v) ∧ rest.IsSuffix s := by
  intro s
  induction s with
  | nil => intro v rest h; simp [get_input] at h
  | cons c cs ih =>
    intro v rest h
    cases hc : pyFloat c with
    | none =>
      rw [get_input, hc] at h
      obtain ⟨h0, ⟨c', hc', hv⟩, hsuf⟩ := ih h
      exact ⟨h0, ⟨c', by simp [hc'], hv⟩, hsuf.trans (List.suffix_cons c cs)⟩
    | some v' =>
      rw [get_input, hc] at h
      dsimp only at h
      by_cases hnn : 0 ≤ v'
      · rw [if_pos hnn] at h
        simp at h
        obtain ⟨hv, hrest⟩ := h
        subst hv; subst hrest
        exact ⟨hnn, ⟨c, by simp, hc⟩, List.suffix_cons c cs⟩
      · rw [if_neg hnn] at h
        obtain ⟨h0, ⟨c', hc', hv⟩, hsuf⟩ := ih h
        exact ⟨h0, ⟨c', by simp [hc'], hv⟩, hsuf.trans (List.suffix_cons c cs)⟩

theorem validVal_mono {s₁ s₂ : List Cell} {v : ℚ}
    (hs : s₁.IsSuffix s₂) (h : ValidVal s₁ v) : ValidVal s₂ v := by
  obtain ⟨h0, c, hc, hv⟩ := h
  exact ⟨h0, c, hs.subset hc, hv⟩

theorem goodRec_mono {s₁ s₂ : List Cell} {rec : MonthRec}
    (hs : s₁.IsSuffix s₂) (h : GoodRec s₁ rec) : GoodRec s₂ rec := by
  obtain ⟨hb, ex, ut, sal, inv, he, hi, h1, h2, h3, h4⟩ := h
  exact ⟨validVal_mono hs hb, ex, ut, sal, inv, he, hi, validVal_mono hs h1,
    validVal_mono hs h2, validVal_mono hs h3, validVal_mono hs h4⟩

theorem collectMonth_ok {st st' : FinanceData} {m : Nat} {stream rest : List Cell}
    (h : collectMonth st m stream = .ok (st', rest)) :
    ∃ rec : MonthRec, st' = pushRec st rec ∧
      rec.1 = Cell.str (toString m ++ "/2023") ∧
      GoodRec stream rec ∧ rest.IsSuffix stream := by
  rw [collectMonth] at h
  cases h1 : get_input stream with
  | none => rw [h1] at h; simp at h
  | some p1 =>
    obtain ⟨b, s1⟩ := p1
    rw [h1] at h
    simp only at h
    cases h2 : get_input s1 with
    | none => rw [h2] at h; simp at h
    | some p2 =>
      obtain ⟨ex, s2⟩ := p2
      rw [h2] at h
      simp only at h
      cases h3 : get_input s2 with
      | none => rw [h3] at h; simp at h
      | some p3 =>
        obtain ⟨ut, s3⟩ := p3
        rw [h3] at h
        simp only at h
        cases h4 : get_input s3 with
        | none => rw [h4] at h; simp at h
        | some p4 =>
          obtain ⟨sal, s4⟩ := p4
          rw [h4] at h
          simp only at h
          cases h5 : get_input s4 with
          | none => rw [h5] at h; simp at h
          | some p5 =>
            obtain ⟨inv, s5⟩ := p5
            rw [h5] at h
            simp only [Except.ok.injEq, Prod.mk.injEq] at h
            obtain ⟨hst, hrest⟩ := h
            obtain ⟨g1, m1, suf1⟩ := get_input_spec h1
            obtain ⟨g2, m2, suf2⟩ := get_input_spec h2
            obtain ⟨g3, m3, suf3⟩ := get_input_spec h3
            obtain ⟨g4, m4, suf4⟩ := get_input_spec h4
            obtain ⟨g5, m5, suf5⟩ := get_input_spec h5
            have s1s : s1.IsSuffix stream := suf1
            have s2s : s2.IsSuffix stream := suf2.trans s1s
            have s3s : s3.IsSuffix stream := suf3.trans s2s
            have s4s : s4.IsSuffix stream := suf4.trans s3s
            have s5s : s5.IsSuffix stream := suf5.trans s4s
            refine ⟨(Cell.str (toString m ++ "/2023"), b,
              [("Extras", ex), ("Utilities", ut)], [("Salary", sal), ("Investments", inv)]),
              ?_, rfl, ?_, by rw [hrest] at s5s; exact s5s⟩
            · rw [← hst]; simp [pushRec]
            · refine ⟨⟨g1, ?_⟩, ex, ut, sal, inv, rfl, rfl,
                validVal_mono s1s ⟨g2, m2⟩, validVal_mono s2s ⟨g3, m3⟩,
                validVal_mono s3s ⟨g4, m4⟩, validVal_mono s4s ⟨g5, m5⟩⟩
              exact m1

theorem collectMonths_ok : ∀ {ms : List Nat} {st st' : FinanceData} {stream rest : List Cell},
    collectMonths st ms stream = .ok (st', rest) →
      ∃ recs : List MonthRec, st' = recs.foldl pushRec st ∧
        recs.map (fun rec => rec.1) = ms.map (fun m => Cell.str (toString m ++ "/2023")) ∧
        (∀ rec ∈ recs, GoodRec stream rec) ∧ rest.IsSuffix stream := by
  intro ms
  induction ms with
  | nil =>
    intro st st' stream rest h
    simp [collectMonths] at h
    exact ⟨[], by simp [← h.1], by simp, by simp, h.2 ▸ List.suffix_rfl⟩
  | cons m ms ih =>
    intro st st' stream rest h
    rw [collectMonths] at h
    cases hcm : collectMonth st m stream with
    | error e => rw [hcm] at h; simp at h
    | ok p =>
      obtain ⟨st1, s1⟩ := p
      rw [hcm] at h
      simp only at h
      obtain ⟨rec, hst1, hlab, hgood, hsuf1⟩ := collectMonth_ok hcm
      obtain ⟨recs, hfold, hlabs, hgoods, hsufr⟩ := ih h
      refine ⟨rec :: recs, by simp [hfold, hst1], by simp [hlab, hlabs], ?_,
        hsufr.trans hsuf1⟩
      intro rec' hrec'
      rcases List.mem_cons.mp hrec' with h1 | h2
      · exact h1 ▸ hgood
      · exact goodRec_mono hsuf1 (hgoods rec' h2)

theorem takeAccepted_step {n : Nat} {s s' : List Cell} {v : ℚ} {vs : List ℚ}
    {r : List Cell} (hg : get_input s = some (v, s'))
    (ht : takeAccepted n s' = some (vs, r)) :
    takeAccepted (n + 1) s = some (v :: vs, r) := by
  rw [takeAccepted, hg]
  simp only [ht]

theorem collectMonth_ok_vals {st st' : FinanceData} {m : Nat}
    {stream rest : List Cell} (h : collectMonth st m stream = .ok (st', rest)) :
    ∃ b ex ut sal inv sA sB sC sD,
      get_input stream = some (b, sA) ∧ get_input sA = some (ex, sB) ∧
      get_input sB = some (ut, sC) ∧ get_input sC = some (sal, sD) ∧
      get_input sD = some (inv, rest) ∧
      st' = pushRec st (Cell.str (toString m ++ "/2023"), b,
        [("Extras", ex), ("Utilities", ut)], [("Salary", sal), ("Investments", inv)]) := by
  rw [collectMonth] at h
  cases h1 : get_input stream with
  | none => rw [h1] at h; simp at h
  | some p1 =>
    obtain ⟨b, sA⟩ := p1
    rw [h1] at h
    simp only at h
    cases h2 : get_input sA with
    | none => rw [h2] at h; simp at h
    | some p2 =>
      obtain ⟨ex, sB⟩ := p2
      rw [h2] at h
      simp only at h
      cases h3 : get_input sB with
      | none => rw [h3] at h; simp at h
      | some p3 =>
        obtain ⟨ut, sC⟩ := p3
        rw [h3] at h
        simp only at h
        cases h4 : get_input sC with
        | none => rw [h4] at h; simp at h
        | some p4 =>
          obtain ⟨sal, sD⟩ := p4
          rw [h4] at h
          simp only at h
          cases h5 : get_input sD with
          | none => rw [h5] at h; simp at h
          | some p5 =>
            obtain ⟨inv, s5⟩ := p5
            rw [h5] at h
            simp only [Except.ok.injEq, Prod.mk.injEq] at h
            obtain ⟨hst, hrest⟩ := h
            rw [hrest] at h5
            refine ⟨b, ex, ut, sal, inv, sA, sB, sC, sD, rfl, h2, h3, h4, h5, ?_⟩
            rw [← hst]
            simp [pushRec]

theorem collectMonths_vals : ∀ {ms : List Nat} {st st' : FinanceData}
    {stream rest : List Cell},
    collectMonths st ms stream = .ok (st', rest) →
      ∃ vals, takeAccepted (5 * ms.length) stream = some (vals, rest) ∧
        st' = (recsOfVals ms vals).foldl pushRec st := by
  intro ms
  induction ms with
  | nil =>
    intro st st' stream rest h
    simp [collectMonths] at h
    refine ⟨[], ?_, by simp [recsOfVals, ← h.1]⟩
    simp [takeAccepted, h.2]
  | cons m ms ih =>
    intro st st' stream rest h
    rw [collectMonths] at h
    cases hcm : collectMonth st m stream with
    | error e => rw [hcm] at h; simp at h
    | ok p =>
      obtain ⟨st1, srest⟩ := p
      rw [hcm] at h
      simp only at h
      obtain ⟨b, ex, ut, sal, inv, sA, sB, sC, sD, h1, h2, h3, h4, h5, hst1⟩ :=
        collectMonth_ok_vals hcm
      obtain ⟨vals', hta, hfold⟩ := ih h
      have t4 := takeAccepted_step h5 hta
      have t3 := takeAccepted_step h4 t4
      have t2 := takeAccepted_step h3 t3
      have t1 := takeAccepted_step h2 t2
      have t0 := takeAccepted_step h1 t1
      refine ⟨b :: ex :: ut :: sal :: inv :: vals', ?_, ?_⟩
      · have hix : 5 * ms.length + 1 + 1 + 1 + 1 + 1 = 5 * (m :: ms).length := by
          simp only [List.length_cons]
          omega
        rw [← hix]
        exact t0
      · rw [hfold, hst1]
        rfl

theorem lookup_some_of_mem_keys {k : String} : ∀ {l : List (String × α)},
    k ∈ l.map Prod.fst → ∃ v, List.lookup k l = some v := by
  intro l
  induction l with
  | nil => intro h; simp at h
  | cons kv l ih =>
    intro h
    by_cases hk : k = kv.1
    · exact ⟨kv.2, by simp [List.lookup, hk]⟩
    · have : k ∈ l.map Prod.fst := by
        rw [List.map_cons] at h
        rcases List.mem_cons.mp h with h1 | h2
        · exact absurd h1 hk
        · exact h2
      obtain ⟨v, hv⟩ := ih this
      exact ⟨v, by simp [List.lookup, beq_false_of_ne hk, hv]⟩

theorem lookup_mem {k : String} {v : α} : ∀ {l : List (String × α)},
    List.lookup k l = some v → (k, v) ∈ l := by
  intro l
  induction l with
  | nil => intro h; simp [List.lookup] at h
  | cons kv l ih =>
    intro h
    by_cases hk : k = kv.1
    · simp [List.lookup, hk] at h
      exact List.mem_cons.mpr (Or.inl (by rw [hk, ← h]))
    · simp [List.lookup, beq_false_of_ne hk] at h
      exact List.mem_cons.mpr (Or.inr (ih h))

theorem lookup_map_getD {k : String} {i : Nat} {dflt : Cell} :
    ∀ {l : List (String × List Cell)},
    List.lookup k (l.map (fun kv => (kv.1, kv.2.getD i dflt)))
      = (List.lookup k l).map (fun col => col.getD i dflt) := by
  intro l
  induction l with
  | nil => simp [List.lookup]
  | cons kv l ih =>
    by_cases hk : k = kv.1
    · simp [List.lookup, hk]
    · simp only [List.map_cons, List.lookup, beq_false_of_ne hk]
      exact ih

theorem dictSet_keys_mem {d : List (String × α)} {k k' : String} {v : α} :
    k' ∈ (dictSet d k v).map Prod.fst ↔ k' ∈ d.map Prod.fst ∨ k' = k := by
  unfold dictSet
  by_cases hany : d.any (fun kv => kv.1 == k)
  · rw [if_pos hany]
    have hkeys : (d.map (fun kv => if kv.1 == k then (k, v) else kv)).map Prod.fst
        = d.map Prod.fst := by
      rw [List.map_map]
      refine List.map_congr_left ?_
      intro kv _
      by_cases hkv : kv.1 = k
      · simp [hkv]
      · simp [beq_false_of_ne hkv, hkv]
    rw [hkeys]
    constructor
    · exact Or.inl
    · rintro (h | h)
      · exact h
      · obtain ⟨kv, hkv, hbeq⟩ := List.any_eq_true.mp hany
        subst h
        have : kv.1 = k' := by simpa using hbeq
        exact this ▸ List.mem_map_of_mem Prod.fst hkv
  · rw [if_neg hany]
    simp

theorem colFor_of_cov {k : String} {ms : List (List (String × ℚ))}
    (h : ∀ es ∈ ms, k ∈ es.map Prod.fst) : ∃ col, colFor k ms = some col := by
  refine mapOpt_some_of_all ?_
  intro es hes
  obtain ⟨v, hv⟩ := lookup_some_of_mem_keys (h es hes)
  simp [hv]

theorem colFor_props {k : String} {ms : List (List (String × ℚ))} {col : List Cell}
    (h : colFor k ms = some col) :
    col.length = ms.length ∧ ∀ c ∈ col, isNum c = true := by
  refine ⟨mapOpt_some_length h, ?_⟩
  intro c hc
  obtain ⟨es, _, hes⟩ := mapOpt_some_mem h c hc
  cases hl : List.lookup k es with
  | none => rw [hl] at hes; simp at hes
  | some q => rw [hl] at hes; simp at hes; rw [← hes]; rfl

theorem foldDict_ok_keys : ∀ {ks : List String} {d : List (String × List Cell)}
    {ms : List (List (String × ℚ))},
    (∀ k ∈ ks, ∀ es ∈ ms, k ∈ es.map Prod.fst) →
    ∃ d', foldDict d ks ms = some d' ∧
      ∀ k', (k' ∈ d'.map Prod.fst ↔ k' ∈ d.map Prod.fst ∨ k' ∈ ks) := by
  intro ks
  induction ks with
  | nil =>
    intro d ms _
    exact ⟨d, rfl, by simp⟩
  | cons k ks ih =>
    intro d ms hcov
    obtain ⟨col, hcol⟩ := colFor_of_cov (hcov k (by simp))
    obtain ⟨d', hd', hkeys⟩ :=
      @ih (dictSet d k col) ms (fun k' hk' es hes => hcov k' (by simp [hk']) es hes)
    refine ⟨d', by simp [foldDict, hcol, hd'], ?_⟩
    intro k'
    rw [hkeys k', dictSet_keys_mem]
    simp
    tauto

theorem mapOpt_comp_map {f : β → Option γ} {g : α → β} :
    ∀ l : List α, mapOpt f (l.map g) = mapOpt (fun a => f (g a)) l := by
  intro l
  induction l with
  | nil => rfl
  | cons a as ih => simp only [List.map_cons, mapOpt, ih]

theorem expense_key_ne {k : String}
    (h : (!(k == "Month") && !(k == "Budget")) = true) : k ≠ "Month" ∧ k ≠ "Budget" := by
  simp at h
  exact h

theorem income_key_ne {k : String}
    (h : strContains k "Income" = true) : k ≠ "Month" ∧ k ≠ "Budget" := by
  constructor
  · rintro rfl; exact absurd h (by decide)
  · rintro rfl; exact absurd h (by decide)

theorem dictSet_pres {mcol bcol : List Cell} {t : List (String × List Cell)}
    {k : String} {col : List Cell} {L : Nat}
    (hk1 : k ≠ "Month") (hk2 : k ≠ "Budget")
    (hcl : col.length = L) (hcn : ∀ c ∈ col, isNum c = true) (ht : TailOK L t) :
    ∃ t', dictSet (("Month", mcol) :: ("Budget", bcol) :: t) k col
        = ("Month", mcol) :: ("Budget", bcol) :: t' ∧ TailOK L t' := by
  have hM : (("Month" : String) == k) = false := beq_false_of_ne (Ne.symm hk1)
  have hB : (("Budget" : String) == k) = false := beq_false_of_ne (Ne.symm hk2)
  unfold dictSet
  by_cases hany : (("Month", mcol) :: ("Budget", bcol) :: t).any (fun kv => kv.1 == k)
  · rw [if_pos hany]
    refine ⟨t.map (fun kv => if kv.1 == k then (k, col) else kv), ?_, ?_⟩
    · simp only [List.map_cons, hM, hB]
      rfl
    · intro kc hkc
      obtain ⟨kv, hkv, hkveq⟩ := List.mem_map.mp hkc
      by_cases hkvk : kv.1 = k
      · rw [if_pos (by simp [hkvk])] at hkveq
        rw [← hkveq]
        exact ⟨hk1, hk2, hcl, hcn⟩
      · rw [if_neg (by simp [hkvk])] at hkveq
        rw [← hkveq]
        exact ht kv hkv
  · rw [if_neg hany]
    refine ⟨t ++ [(k, col)], by simp, ?_⟩
    intro kc hkc
    rcases List.mem_append.mp hkc with h1 | h2
    · exact ht kc h1
    · simp at h2
      rw [h2]
      exact ⟨hk1, hk2, hcl, hcn⟩

theorem foldDict_pres : ∀ {ks : List String} {mcol bcol : List Cell}
    {t : List (String × List Cell)} {ms : List (List (String × ℚ))} {L : Nat},
    ms.length = L →
    (∀ k ∈ ks, k ≠ "Month" ∧ k ≠ "Budget" ∧ ∀ es ∈ ms, k ∈ es.map Prod.fst) →
    TailOK L t →
    ∃ t', foldDict (("Month", mcol) :: ("Budget", bcol) :: t) ks ms
        = some (("Month", mcol) :: ("Budget", bcol) :: t') ∧ TailOK L t' := by
  intro ks
  induction ks with
  | nil =>
    intro mcol bcol t ms L _ _ ht
    exact ⟨t, rfl, ht⟩
  | cons k ks ih =>
    intro mcol bcol t ms L hms hks ht
    obtain ⟨hk1, hk2, hcov⟩ := hks k (by simp)
    obtain ⟨col, hcol⟩ := colFor_of_cov hcov
    obtain ⟨hcl, hcn⟩ := colFor_props hcol
    obtain ⟨t1, heq, ht1⟩ :=
      @dictSet_pres mcol bcol t k col L hk1 hk2 (hcl.trans hms) hcn ht
    obtain ⟨t', hfold, ht'⟩ :=
      @ih mcol bcol t1 ms L hms (fun k' hk' => hks k' (by simp [hk'])) ht1
    refine ⟨t', ?_, ht'⟩
    simp only [foldDict, hcol]
    rw [heq]
    exact hfold

theorem save_data_table_struct {fd : FinanceData} {e0 i0 : List (String × ℚ)}
    {er ir : List (List (String × ℚ))} {L : Nat}
    (he : fd.expenses_data = e0 :: er) (hi : fd.incomes_data = i0 :: ir)
    (hml : fd.months.length = L) (hbl : fd.budgets_data.length = L)
    (hel : fd.expenses_data.length = L) (hil : fd.incomes_data.length = L)
    (hkE : ∀ k ∈ e0.map Prod.fst,
      k ≠ "Month" ∧ k ≠ "Budget" ∧ ∀ es ∈ fd.expenses_data, k ∈ es.map Prod.fst)
    (hkI : ∀ k ∈ i0.map Prod.fst,
      k ≠ "Month" ∧ k ≠ "Budget" ∧ ∀ es ∈ fd.incomes_data, k ∈ es.map Prod.fst) :
    ∃ t, save_data_table fd
        = .ok (("Month", fd.months) :: ("Budget", colOfRats fd.budgets_data) :: t)
      ∧ TailOK L t := by
  have htnil : TailOK L ([] : List (String × List Cell)) := by
    intro kc hkc; simp at hkc
  obtain ⟨t1, hfold1, ht1⟩ := @foldDict_pres (e0.map Prod.fst) fd.months
    (colOfRats fd.budgets_data) [] fd.expenses_data L hel hkE htnil
  obtain ⟨t2, hfold2, ht2⟩ := @foldDict_pres (i0.map Prod.fst) fd.months
    (colOfRats fd.budgets_data) t1 fd.incomes_data L hil hkI ht1
  refine ⟨t2, ?_, ht2⟩
  unfold save_data_table
  rw [he]
  simp only
  rw [← he, hfold1]
  simp only
  rw [hi]
  simp only
  rw [← hi, hfold2]

theorem minLen_of_allEq {L : Nat} : ∀ {cols : List (List Cell)}, cols ≠ [] →
    (∀ c ∈ cols, c.length = L) → minLen cols = L := by
  intro cols
  induction cols with
  | nil => intro h; exact absurd rfl h
  | cons c cs ih =>
    intro _ hall
    cases cs with
    | nil => simpa [minLen] using hall c (by simp)
    | cons c' cs' =>
      have h1 : minLen (c :: c' :: cs') = min c.length (minLen (c' :: cs')) := rfl
      rw [h1, hall c (by simp), ih (by simp) (fun x hx => hall x (by simp [hx]))]
      simp

theorem zipCols_of_allEq {cols : List (List Cell)} {L : Nat} (hne : cols ≠ [])
    (hall : ∀ c ∈ cols, c.length = L) :
    zipCols cols
      = (List.range L).map (fun i => cols.map (fun c => c.getD i (Cell.str ""))) := by
  cases cols with
  | nil => exact absurd rfl hne
  | cons c cs =>
    rw [zipCols, minLen_of_allEq hne hall]

theorem getD_map_of_lt {f : α → β} {l : List α} {i : Nat} (h : i < l.length)
    (d : β) (d' : α) : (l.map f).getD i d = f (l.getD i d') := by
  rw [List.getD_eq_getElem?_getD, List.getD_eq_getElem?_getD, List.getElem?_map,
    List.getElem?_eq_getElem h]
  simp

theorem getD_mem_of_lt {l : List α} {i : Nat} (h : i < l.length) (d : α) :
    l.getD i d ∈ l := by
  rw [List.getD_eq_getElem _ _ h]
  exact List.getElem_mem h

theorem reimport_of_table {mcol : List Cell} {bq : List ℚ}
    {t : List (String × List Cell)} {L : Nat}
    (hmL : mcol.length = L) (hbL : bq.length = L) (htok : TailOK L t) :
    ∃ recs, mapOpt rowRecord (rowsOfFile
        ((("Month", mcol) :: ("Budget", colOfRats bq) :: t).map Prod.fst,
         zipCols ((("Month", mcol) :: ("Budget", colOfRats bq) :: t).map Prod.snd)))
      = some recs ∧ recs.map (fun rec => rec.1) = mcol
      ∧ recs.map (fun rec => rec.2.1) = bq := by
  set d : List (String × List Cell) :=
    ("Month", mcol) :: ("Budget", colOfRats bq) :: t with hd
  have hcols : ∀ c ∈ d.map Prod.snd, c.length = L := by
    intro c hc
    rcases List.mem_map.mp hc with ⟨kc, hkc, rfl⟩
    rw [hd] at hkc
    rcases List.mem_cons.mp hkc with h1 | hkc2
    · rw [h1]; exact hmL
    rcases List.mem_cons.mp hkc2 with h2 | h3
    · rw [h2]; simpa [colOfRats] using hbL
    · exact (htok kc h3).2.2.1
  have hdne : d.map Prod.snd ≠ [] := by rw [hd]; simp
  have hzip : zipCols (d.map Prod.snd)
      = (List.range L).map
          (fun i => (d.map Prod.snd).map (fun c => c.getD i (Cell.str ""))) :=
    zipCols_of_allEq hdne hcols
  have hrows : rowsOfFile (d.map Prod.fst, zipCols (d.map Prod.snd))
      = (List.range L).map
          (fun i => d.map (fun kv => (kv.1, kv.2.getD i (Cell.str "")))) := by
    simp only [rowsOfFile, hzip, List.map_map]
    refine List.map_congr_left ?_
    intro i _
    dsimp only [Function.comp]
    rw [List.zip_map']
    rfl
  have hrec : ∀ i, i < L → ∃ es inc,
      rowRecord (d.map (fun kv => (kv.1, kv.2.getD i (Cell.str ""))))
        = some (mcol.getD i (Cell.str ""), bq.getD i 0, es, inc) := by
    intro i hiL
    have hrow2 : d.map (fun kv => (kv.1, kv.2.getD i (Cell.str "")))
        = ("Month", mcol.getD i (Cell.str ""))
          :: ("Budget", (colOfRats bq).getD i (Cell.str ""))
          :: t.map (fun kv => (kv.1, kv.2.getD i (Cell.str ""))) := by
      rw [hd]; simp
    have hbudcell : (colOfRats bq).getD i (Cell.str "") = Cell.num (bq.getD i 0) :=
      getD_map_of_lt (by rw [hbL]; exact hiL) _ _
    have hlm : pyLookup (d.map (fun kv => (kv.1, kv.2.getD i (Cell.str "")))) "Month"
        = some (mcol.getD i (Cell.str "")) := by
      rw [hrow2]; simp [pyLookup, List.lookup]
    have hlb : pyLookup (d.map (fun kv => (kv.1, kv.2.getD i (Cell.str "")))) "Budget"
        = some ((colOfRats bq).getD i (Cell.str "")) := by
      rw [hrow2]; simp [pyLookup, List.lookup]
    have htail : ∀ k, k ≠ "Month" → k ≠ "Budget" → k ∈ t.map Prod.fst →
        ∃ q, (pyLookup (d.map (fun kv => (kv.1, kv.2.getD i (Cell.str "")))) k).bind pyFloat
          = some q := by
      intro k hkm hkb hkt
      obtain ⟨col, hcol⟩ := lookup_some_of_mem_keys hkt
      have hmem := lookup_mem hcol
      obtain ⟨_, _, hclen, hcnum⟩ := htok _ hmem
      have hlookup : pyLookup (d.map (fun kv => (kv.1, kv.2.getD i (Cell.str "")))) k
          = some (col.getD i (Cell.str "")) := by
        rw [hrow2, pyLookup]
        simp only [List.lookup, beq_false_of_ne hkm, beq_false_of_ne hkb]
        rw [lookup_map_getD, hcol]
        rfl
      have hnum : isNum (col.getD i (Cell.str "")) = true :=
        hcnum _ (getD_mem_of_lt (by rw [hclen]; exact hiL) _)
      cases hc : col.getD i (Cell.str "") with
      | str s => rw [hc] at hnum; simp [isNum] at hnum
      | num q => exact ⟨q, by rw [hlookup, hc]; rfl⟩
    have hkeysrow : (d.map (fun kv => (kv.1, kv.2.getD i (Cell.str "")))).map Prod.fst
        = "Month" :: "Budget" :: t.map Prod.fst := by
      rw [hd]; simp
    have hgen : ∀ k, k ≠ "Month" → k ≠ "Budget" →
        k ∈ (d.map (fun kv => (kv.1, kv.2.getD i (Cell.str "")))).map Prod.fst →
        (((pyLookup (d.map (fun kv => (kv.1, kv.2.getD i (Cell.str "")))) k).bind
          pyFloat)).isSome := by
      intro k hkm hkb hkmem
      rw [hkeysrow] at hkmem
      rcases List.mem_cons.mp hkmem with h1 | hkmem2
      · exact absurd h1 hkm
      rcases List.mem_cons.mp hkmem2 with h2 | h3
      · exact absurd h2 hkb
      obtain ⟨q, hq⟩ := htail k hkm hkb h3
      rw [hq]
      rfl
    obtain ⟨es, hes⟩ : ∃ es,
        expensesOf (d.map (fun kv => (kv.1, kv.2.getD i (Cell.str "")))) = some es := by
      unfold expensesOf comprehend
      refine mapOpt_some_of_all ?_
      intro k hk
      obtain ⟨hkmem, hkp⟩ := List.mem_filter.mp hk
      obtain ⟨hkm, hkb⟩ := expense_key_ne hkp
      obtain ⟨q, hq⟩ := Option.isSome_iff_exists.mp (hgen k hkm hkb hkmem)
      rw [hq]
      rfl
    obtain ⟨inc, hinc⟩ : ∃ inc,
        incomesOf (d.map (fun kv => (kv.1, kv.2.getD i (Cell.str "")))) = some inc := by
      unfold incomesOf comprehend
      refine mapOpt_some_of_all ?_
      intro k hk
      obtain ⟨hkmem, hkp⟩ := List.mem_filter.mp hk
      obtain ⟨hkm, hkb⟩ := income_key_ne hkp
      obtain ⟨q, hq⟩ := Option.isSome_iff_exists.mp (hgen k hkm hkb hkmem)
      rw [hq]
      rfl
    refine ⟨es, inc, ?_⟩
    simp only [rowRecord, hlm, hlb, hbudcell, hes, hinc, Option.some_bind, pyFloat]
  have hall : ∀ i ∈ List.range L,
      (rowRecord (d.map (fun kv => (kv.1, kv.2.getD i (Cell.str ""))))).isSome := by
    intro i hi
    obtain ⟨es, inc, h⟩ := hrec i (List.mem_range.mp hi)
    rw [h]
    rfl
  obtain ⟨recs, hrecs⟩ := mapOpt_some_of_all hall
  have hlen : recs.length = L := by
    have := mapOpt_some_length hrecs
    simpa using this
  have hget : ∀ n, n < L →
      ∃ es inc, recs[n]? = some (mcol.getD n (Cell.str ""), bq.getD n 0, es, inc) := by
    intro n hn
    obtain ⟨b, hb, hfb⟩ := mapOpt_some_get hrecs n n (List.getElem?_range hn)
    obtain ⟨es, inc, hr⟩ := hrec n hn
    rw [hr] at hfb
    exact ⟨es, inc, by rw [hb, ← Option.some.inj hfb]⟩
  have hmonths : recs.map (fun rec => rec.1) = mcol := by
    apply List.ext_getElem?
    intro n
    by_cases hn : n < L
    · obtain ⟨es, inc, hb⟩ := hget n hn
      have hnm : n < mcol.length := by rw [hmL]; exact hn
      rw [List.getElem?_map, hb, List.getElem?_eq_getElem hnm, Option.map_some',
        List.getD_eq_getElem mcol (Cell.str "") hnm]
    · have h1 : L ≤ n := Nat.le_of_not_lt hn
      have h2 : (recs.map (fun rec => rec.1))[n]? = none := by
        rw [List.getElem?_eq_none]
        simpa [hlen] using h1
      have h3 : mcol[n]? = none := by
        rw [List.getElem?_eq_none]
        rw [hmL]
        exact h1
      rw [h2, h3]
  have hbudgets : recs.map (fun rec => rec.2.1) = bq := by
    apply List.ext_getElem?
    intro n
    by_cases hn : n < L
    · obtain ⟨es, inc, hb⟩ := hget n hn
      have hnb : n < bq.length := by rw [hbL]; exact hn
      rw [List.getElem?_map, hb, List.getElem?_eq_getElem hnb, Option.map_some',
        List.getD_eq_getElem bq 0 hnb]
    · have h1 : L ≤ n := Nat.le_of_not_lt hn
      have h2 : (recs.map (fun rec => rec.2.1))[n]? = none := by
        rw [List.getElem?_eq_none]
        simpa [hlen] using h1
      have h3 : bq[n]? = none := by
        rw [List.getElem?_eq_none]
        rw [hbL]
        exact h1
      rw [h2, h3]
  refine ⟨recs, ?_, hmonths, hbudgets⟩
  rw [hrows, mapOpt_comp_map]
  exact hrecs

theorem roundtrip_core {fd : FinanceData} {e0 i0 : List (String × ℚ)}
    {er ir : List (List (String × ℚ))}
    (he : fd.expenses_data = e0 :: er) (hi : fd.incomes_data = i0 :: ir)
    (hbl : fd.budgets_data.length = fd.months.length)
    (hel : fd.expenses_data.length = fd.months.length)
    (hil : fd.incomes_data.length = fd.months.length)
    (hkE : ∀ k ∈ e0.map Prod.fst,
      k ≠ "Month" ∧ k ≠ "Budget" ∧ ∀ es ∈ fd.expenses_data, k ∈ es.map Prod.fst)
    (hkI : ∀ k ∈ i0.map Prod.fst,
      k ≠ "Month" ∧ k ≠ "Budget" ∧ ∀ es ∈ fd.incomes_data, k ∈ es.map Prod.fst) :
    ∃ f st, save_data fd = .ok f ∧ reimport f = .ok st ∧
      st.months = fd.months ∧ st.budgets_data = fd.budgets_data := by
  obtain ⟨t, htab, htok⟩ := save_data_table_struct he hi rfl hbl hel hil hkE hkI
  have hsave : save_data fd
      = .ok ((("Month", fd.months) :: ("Budget", colOfRats fd.budgets_data) :: t).map Prod.fst,
          zipCols ((("Month", fd.months)
            :: ("Budget", colOfRats fd.budgets_data) :: t).map Prod.snd)) := by
    rw [save_data, htab]
    rfl
  obtain ⟨recs, hrecs, hm, hb⟩ :=
    @reimport_of_table fd.months fd.budgets_data t fd.months.length rfl hbl htok
  have hok : processRows FinanceData.init (rowsOfFile
      ((("Month", fd.months) :: ("Budget", colOfRats fd.budgets_data) :: t).map Prod.fst,
       zipCols ((("Month", fd.months)
         :: ("Budget", colOfRats fd.budgets_data) :: t).map Prod.snd)))
      = .ok (recs.foldl pushRec FinanceData.init) :=
    processRows_ok_iff.mpr ⟨recs, hrecs, rfl⟩
  refine ⟨_, recs.foldl pushRec FinanceData.init, hsave, ?_, ?_, ?_⟩
  · simp only [reimport, FinanceData.collect_monthly_data_csv, hok]
  · obtain ⟨h1, _, _, _⟩ := foldl_pushRec_fields recs FinanceData.init
    rw [h1]
    simpa [FinanceData.init] using hm
  · obtain ⟨_, h2, _, _⟩ := foldl_pushRec_fields recs FinanceData.init
    rw [h2]
    simpa [FinanceData.init] using hb

theorem countQ_pos {v : ℚ} {xs : List ℚ} (h : v ∈ xs) : 0 < countQ xs v := by
  unfold countQ
  rw [List.length_pos]
  exact List.ne_nil_of_mem (List.mem_filter.mpr ⟨h, by simp⟩)

theorem le_foldr_max {n : Nat} : ∀ {l : List Nat}, n ∈ l → n ≤ l.foldr max 0 := by
  intro l
  induction l with
  | nil => intro h; simp at h
  | cons a as ih =>
    intro h
    rcases List.mem_cons.mp h with h1 | h2
    · rw [h1]; exact Nat.le_max_left a _
    · exact Nat.le_trans (ih h2) (Nat.le_max_right a _)

theorem foldr_max_attained : ∀ {l : List Nat}, l ≠ [] →
    l.foldr max 0 ∈ l ∨ l.foldr max 0 = 0 := by
  intro l
  induction l with
  | nil => intro h; exact absurd rfl h
  | cons a as ih =>
    intro _
    cases has : as with
    | nil => left; simp
    | cons a' as' =>
      rw [← has]
      have hne : as ≠ [] := by rw [has]; simp
      rcases Nat.le_total a (as.foldr max 0) with h1 | h2
      · have hmax : (a :: as).foldr max 0 = as.foldr max 0 := by
          simp [Nat.max_eq_right h1]
        rcases ih hne with hmem | hzero
        · left; rw [hmax]; exact List.mem_cons.mpr (Or.inr hmem)
        · right; rw [hmax, hzero]
      · have hmax : (a :: as).foldr max 0 = a := by
          simp [Nat.max_eq_left h2]
        left; rw [hmax]; exact List.mem_cons.mpr (Or.inl rfl)

theorem maxCount_attained {xs : List ℚ} (h : xs ≠ []) :
    ∃ v ∈ xs, countQ xs v = maxCount xs := by
  have hne : xs.map (countQ xs) ≠ [] := by simpa using h
  rcases foldr_max_attained hne with hmem | hzero
  · obtain ⟨v, hv, hveq⟩ := List.mem_map.mp hmem
    exact ⟨v, hv, by simp only [maxCount]; exact hveq⟩
  · exfalso
    obtain ⟨v, hv⟩ := List.exists_mem_of_ne_nil xs h
    have h1 : countQ xs v ≤ (xs.map (countQ xs)).foldr max 0 :=
      le_foldr_max (List.mem_map_of_mem _ hv)
    rw [hzero] at h1
    exact absurd (Nat.le_antisymm h1 (Nat.zero_le _)) (Nat.pos_iff_ne_zero.mp (countQ_pos hv))

theorem countQ_le_maxCount {v : ℚ} {xs : List ℚ} (h : v ∈ xs) :
    countQ xs v ≤ maxCount xs := by
  simp only [maxCount]
  exact le_foldr_max (List.mem_map_of_mem _ h)

theorem modeReport_spec {xs : List ℚ} (h : xs ≠ []) :
    ∃ m, modeReport xs = some m ∧ m ∈ xs ∧
      (∀ v ∈ xs, countQ xs v ≤ countQ xs m) ∧
      (∀ v ∈ xs, countQ xs v = countQ xs m → m ≤ v) := by
  obtain ⟨v0, hv0, hc0⟩ := maxCount_attained h
  have hvfilt : v0 ∈ (xs.dedup).filter (fun v => decide (countQ xs v = maxCount xs)) :=
    List.mem_filter.mpr ⟨List.mem_dedup.mpr hv0, by simp [hc0]⟩
  have hsne : pandasMode xs ≠ [] := by
    unfold pandasMode
    intro heq
    have hmem : v0 ∈ List.insertionSort (fun a b => a ≤ b)
        ((xs.dedup).filter (fun v => decide (countQ xs v = maxCount xs))) :=
      (List.mem_insertionSort _).mpr hvfilt
    rw [heq] at hmem
    simp at hmem
  cases hpm : pandasMode xs with
  | nil => exact absurd hpm hsne
  | cons m rest =>
    have hsorted : List.Sorted (fun a b => a ≤ b) (m :: rest) := by
      rw [← hpm]
      unfold pandasMode
      exact List.sorted_insertionSort _ _
    have hmmem : m ∈ (xs.dedup).filter (fun v => decide (countQ xs v = maxCount xs)) := by
      have hm1 : m ∈ pandasMode xs := by rw [hpm]; simp
      unfold pandasMode at hm1
      exact (List.mem_insertionSort _).mp hm1
    obtain ⟨hmd, hmc⟩ := List.mem_filter.mp hmmem
    have hmx : m ∈ xs := List.mem_dedup.mp hmd
    have hmcount : countQ xs m = maxCount xs := by simpa using hmc
    refine ⟨m, by rw [modeReport, hpm], hmx, ?_, ?_⟩
    · intro v hv
      rw [hmcount]
      exact countQ_le_maxCount hv
    · intro v hv hveq
      have hvfilt2 : v ∈ (xs.dedup).filter (fun v => decide (countQ xs v = maxCount xs)) :=
        List.mem_filter.mpr ⟨List.mem_dedup.mpr hv, by simp [hveq, hmcount]⟩
      have hvsort : v ∈ m :: rest := by
        rw [← hpm]
        unfold pandasMode
        exact (List.mem_insertionSort _).mpr hvfilt2
      rcases List.mem_cons.mp hvsort with h1 | h2
      · rw [h1]
      · exact (List.sorted_cons.mp hsorted).1 v h2

theorem rowRecord_inv {r : Row} {rec : MonthRec} (h : rowRecord r = some rec) :
    pyLookup r "Month" = some rec.1 ∧
    (pyLookup r "Budget").bind pyFloat = some rec.2.1 ∧
    expensesOf r = some rec.2.2.1 ∧ incomesOf r = some rec.2.2.2 := by
  cases hm : pyLookup r "Month" with
  | none => simp [rowRecord, hm] at h
  | some m =>
    cases hb : (pyLookup r "Budget").bind pyFloat with
    | none => simp [rowRecord, hm, hb] at h
    | some b =>
      cases he : expensesOf r with
      | none => simp [rowRecord, hm, hb, he] at h
      | some es =>
        cases hi : incomesOf r with
        | none => simp [rowRecord, hm, hb, he, hi] at h
        | some inc =>
          simp [rowRecord, hm, hb, he, hi] at h
          subst h
          exact ⟨rfl, rfl, rfl, rfl⟩

theorem processRows_expenses_incomes {rs : List Row} {st : FinanceData}
    (h : processRows FinanceData.init rs = .ok st)
    {i : Nat} {r : Row} {es inc : List (String × ℚ)}
    (hr : rs[i]? = some r)
    (hes : st.expenses_data[i]? = some es) (hinc : st.incomes_data[i]? = some inc) :
    expensesOf r = some es ∧ incomesOf r = some inc := by
  obtain ⟨recs, hrecs, hst⟩ := processRows_ok_iff.mp h
  obtain ⟨rec, hreci, hrr⟩ := mapOpt_some_get hrecs i r hr
  obtain ⟨_, _, h3, h4⟩ := foldl_pushRec_fields recs FinanceData.init
  rw [hst, h3] at hes
  rw [hst, h4] at hinc
  simp only [FinanceData.init, List.nil_append] at hes hinc
  rw [List.getElem?_map, hreci, Option.map_some'] at hes hinc
  obtain ⟨_, _, hexp, hincf⟩ := rowRecord_inv hrr
  rw [Option.some.inj hes] at hexp
  rw [Option.some.inj hinc] at hincf
  exact ⟨hexp, hincf⟩

/-- C1: for every row of a successful CSV import, the stored expenses mapping
has an entry for exactly the columns whose name is neither `Month` nor
`Budget` (income columns folded in as well), the stored incomes mapping has
entries for exactly the columns whose name contains the substring `Income`,
and every stored entry maps its column name to the `float`-parsed value of
that column's cell in the row. -/
theorem c1_csv_row_classification {rs : List Row} {st : FinanceData}
    (h : processRows FinanceData.init rs = .ok st)
    (i : Nat) (r : Row) (es inc : List (String × ℚ))
    (hr : rs[i]? = some r)
    (hes : st.expenses_data[i]? = some es) (hinc : st.incomes_data[i]? = some inc) :
    es.map Prod.fst
      = (r.map Prod.fst).filter (fun k => !(k == "Month") && !(k == "Budget")) ∧
    inc.map Prod.fst = (r.map Prod.fst).filter (fun k => strContains k "Income") ∧
    (∀ kv ∈ es, (pyLookup r kv.1).bind pyFloat = some kv.2) ∧
    (∀ kv ∈ inc, (pyLookup r kv.1).bind pyFloat = some kv.2) := by
  obtain ⟨hexp, hincf⟩ := processRows_expenses_incomes h hr hes hinc
  exact ⟨comprehend_keys hexp, comprehend_keys hincf,
    comprehend_vals hexp, comprehend_vals hincf⟩

/-- C1 witness: a one-row import with an income-named column, evaluated
concretely. -/
theorem c1_witness :
    ([("AIncome", (3:ℚ)), ("Extras", (2:ℚ))].map Prod.fst
      = (([("Month", Cell.str "m"), ("Budget", Cell.num 1), ("AIncome", Cell.num 3),
          ("Extras", Cell.num 2)] : Row).map Prod.fst).filter
            (fun k => !(k == "Month") && !(k == "Budget"))) ∧
    ([("AIncome", (3:ℚ))].map Prod.fst
      = (([("Month", Cell.str "m"), ("Budget", Cell.num 1), ("AIncome", Cell.num 3),
          ("Extras", Cell.num 2)] : Row).map Prod.fst).filter
            (fun k => strContains k "Income")) ∧
    (∀ kv ∈ [("AIncome", (3:ℚ)), ("Extras", (2:ℚ))],
      (pyLookup [("Month", Cell.str "m"), ("Budget", Cell.num 1), ("AIncome", Cell.num 3),
        ("Extras", Cell.num 2)] kv.1).bind pyFloat = some kv.2) ∧
    (∀ kv ∈ [("AIncome", (3:ℚ))],
      (pyLookup [("Month", Cell.str "m"), ("Budget", Cell.num 1), ("AIncome", Cell.num 3),
        ("Extras", Cell.num 2)] kv.1).bind pyFloat = some kv.2) :=
  @c1_csv_row_classification
    [[("Month", Cell.str "m"), ("Budget", Cell.num 1), ("AIncome", Cell.num 3),
      ("Extras", Cell.num 2)]]
    ⟨[Cell.str "m"], [1], [[("AIncome", 3), ("Extras", 2)]], [[("AIncome", 3)]]⟩
    rfl 0 _ _ _ rfl rfl rfl

/-- C2: whenever `collect_monthly_data` returns normally from an empty store —
on the CSV path for any read outcome, or on the interactive path — the four
collections have equal length. -/
theorem c2_parallel_lengths :
    (∀ (input : ReadResult) (st : FinanceData),
      FinanceData.collect_monthly_data_csv FinanceData.init input = .ok st → EqLens st) ∧
    (∀ (stream rest : List Cell) (st : FinanceData),
      FinanceData.collect_monthly_data_manual FinanceData.init stream = .ok (st, rest) →
        EqLens st) := by
  constructor
  · intro input st h
    cases input with
    | notFound =>
      simp only [FinanceData.collect_monthly_data_csv, Except.ok.injEq] at h
      rw [← h]
      exact ⟨rfl, rfl, rfl⟩
    | rows rs err =>
      cases hp : processRows FinanceData.init rs with
      | error e => simp [FinanceData.collect_monthly_data_csv, hp] at h
      | ok st1 =>
        simp only [FinanceData.collect_monthly_data_csv, hp, Except.ok.injEq] at h
        subst h
        obtain ⟨recs, _, hst⟩ := processRows_ok_iff.mp hp
        obtain ⟨h1, h2, h3, h4⟩ := foldl_pushRec_fields recs FinanceData.init
        rw [hst]
        refine ⟨?_, ?_, ?_⟩
        · rw [h2, h1]; simp [FinanceData.init]
        · rw [h3, h1]; simp [FinanceData.init]
        · rw [h4, h1]; simp [FinanceData.init]
  · intro stream rest st h
    obtain ⟨recs, hfold, _, _, _⟩ := collectMonths_ok h
    obtain ⟨h1, h2, h3, h4⟩ := foldl_pushRec_fields recs FinanceData.init
    rw [hfold]
    refine ⟨?_, ?_, ?_⟩
    · rw [h2, h1]; simp [FinanceData.init]
    · rw [h3, h1]; simp [FinanceData.init]
    · rw [h4, h1]; simp [FinanceData.init]

/-- C2 witness: one CSV row and one full interactive run, evaluated
concretely. -/
theorem c2_witness :
    EqLens ⟨[Cell.str "1/2023"], [1000], [[("Extras", 200)]], [[]]⟩ ∧
    EqLens ⟨(List.range' 1 12).map (fun m => Cell.str (toString m ++ "/2023")),
      List.replicate 12 1,
      List.replicate 12 [("Extras", 1), ("Utilities", 1)],
      List.replicate 12 [("Salary", 1), ("Investments", 1)]⟩ :=
  ⟨c2_parallel_lengths.1
      (.rows [[("Month", Cell.str "1/2023"), ("Budget", Cell.num 1000),
        ("Extras", Cell.num 200)]] false)
      ⟨[Cell.str "1/2023"], [1000], [[("Extras", 200)]], [[]]⟩ rfl,
    c2_parallel_lengths.2 (List.replicate 60 (Cell.num 1)) []
      ⟨(List.range' 1 12).map (fun m => Cell.str (toString m ++ "/2023")),
        List.replicate 12 1,
        List.replicate 12 [("Extras", 1), ("Utilities", 1)],
        List.replicate 12 [("Salary", 1), ("Investments", 1)]⟩ rfl⟩

/-- C8: on an empty Record Store, `save_data` raises the index-based failure
at the `expenses_data[0]` access instead of producing a file (the same holds
for the table builder it shares with `to_dataframe`); the error is returned
to the caller uncaught. -/
theorem c8_empty_store_save_fails :
    save_data FinanceData.init = .error PyError.indexError ∧
    save_data_table FinanceData.init = .error PyError.indexError :=
  ⟨rfl, rfl⟩

/-- C9: for every row of a successful CSV import, the incomes mapping is a
sub-mapping of that month's expenses mapping: it is exactly the expenses
entries whose key contains `Income`, so every income entry appears among the
expenses with the same value. -/
theorem c9_incomes_sub_expenses {rs : List Row} {st : FinanceData}
    (h : processRows FinanceData.init rs = .ok st)
    (i : Nat) (r : Row) (es inc : List (String × ℚ))
    (hr : rs[i]? = some r)
    (hes : st.expenses_data[i]? = some es) (hinc : st.incomes_data[i]? = some inc) :
    inc = es.filter (fun kv => strContains kv.1 "Income") ∧ ∀ kv ∈ inc, kv ∈ es := by
  obtain ⟨hexp, hincf⟩ := processRows_expenses_incomes h hr hes hinc
  have himp : ∀ k, strContains k "Income" = true →
      (!(k == "Month") && !(k == "Budget")) = true := by
    intro k hk
    obtain ⟨h1, h2⟩ := income_key_ne hk
    simp [h1, h2]
  have hsub := comprehend_sub himp hexp
  have hincf2 : comprehend (fun k => strContains k "Income") r = some inc := hincf
  have heq : inc = es.filter (fun kv => strContains kv.1 "Income") :=
    Option.some.inj (hincf2.symm.trans hsub)
  refine ⟨heq, ?_⟩
  intro kv hkv
  rw [heq] at hkv
  exact List.mem_of_mem_filter hkv

/-- C9 witness: a row with an income-classified column, evaluated
concretely. -/
theorem c9_witness :
    ([("MyIncome", (3:ℚ))]
      = [("MyIncome", (3:ℚ))].filter (fun kv => strContains kv.1 "Income")) ∧
    ∀ kv ∈ [("MyIncome", (3:ℚ))], kv ∈ [("MyIncome", (3:ℚ))] :=
  @c9_incomes_sub_expenses
    [[("Month", Cell.str "m"), ("Budget", Cell.num 1), ("MyIncome", Cell.num 3)]]
    ⟨[Cell.str "m"], [1], [[("MyIncome", 3)]], [[("MyIncome", 3)]]⟩
    rfl 0 _ _ _ rfl rfl rfl

/-- C10: `save_data` and `to_dataframe` build the identical flat table from
the same store — same column keys in the same order, same per-column values,
agreeing also on which stores make them fail — and the file `save_data`
writes is exactly that table's keys as header plus its transposed columns as
rows. -/
theorem c10_save_eq_dataframe :
    (∀ fd : FinanceData, save_data_table fd = fd.to_dataframe) ∧
    (∀ fd : FinanceData, save_data fd
      = (fd.to_dataframe).map (fun dt => (dt.map Prod.fst, zipCols (dt.map Prod.snd)))) :=
  ⟨fun _ => rfl, fun _ => rfl⟩

/-- C3 counterexample: a two-month store whose second month's category set
{B} differs from record 0's {A}.  The claim says the differing keys are
silently dropped and the operation still succeeds; in fact both `save_data`'s
table build and `to_dataframe` fail with a key-lookup error at `expenses["A"]`
for month 1. -/
theorem c3_counterexample :
    ([("B", (2:ℚ))].map Prod.fst ≠ [("A", (1:ℚ))].map Prod.fst) ∧
    save_data_table
        ⟨[Cell.str "1", Cell.str "2"], [0, 0], [[("A", 1)], [("B", 2)]], [[], []]⟩
      = .error PyError.keyError ∧
    FinanceData.to_dataframe
        ⟨[Cell.str "1", Cell.str "2"], [0, 0], [[("A", 1)], [("B", 2)]], [[], []]⟩
      = .error PyError.keyError ∧
    save_data ⟨[Cell.str "1", Cell.str "2"], [0, 0], [[("A", 1)], [("B", 2)]], [[], []]⟩
      = .error PyError.keyError :=
  ⟨by decide, rfl, rfl, rfl⟩

/-- C3 (amended): `save_data` and `to_dataframe` take the column keys from
record 0 only — the produced table's key set is exactly {Month, Budget} ∪
record-0 expense keys ∪ record-0 income keys, so keys appearing only in later
months are silently dropped — but the operation succeeds only when every
month's mapping contains every record-0 key; a later month missing a record-0
key makes it fail with a key-lookup error (see the counterexample). -/
theorem c3_record0_schema {fd : FinanceData} {e0 i0 : List (String × ℚ)}
    {er ir : List (List (String × ℚ))}
    (he : fd.expenses_data = e0 :: er) (hi : fd.incomes_data = i0 :: ir)
    (hcovE : ∀ es ∈ fd.expenses_data, ∀ k ∈ e0.map Prod.fst, k ∈ es.map Prod.fst)
    (hcovI : ∀ es ∈ fd.incomes_data, ∀ k ∈ i0.map Prod.fst, k ∈ es.map Prod.fst) :
    ∃ dt, save_data_table fd = .ok dt ∧ FinanceData.to_dataframe fd = .ok dt ∧
      ∀ k, k ∈ dt.map Prod.fst ↔
        (k = "Month" ∨ k = "Budget" ∨ k ∈ e0.map Prod.fst ∨ k ∈ i0.map Prod.fst) := by
  obtain ⟨d1, hd1, hkeys1⟩ := @foldDict_ok_keys (e0.map Prod.fst)
    [("Month", fd.months), ("Budget", colOfRats fd.budgets_data)]
    fd.expenses_data (fun k hk es hes => hcovE es hes k hk)
  obtain ⟨d2, hd2, hkeys2⟩ := @foldDict_ok_keys (i0.map Prod.fst) d1
    fd.incomes_data (fun k hk es hes => hcovI es hes k hk)
  have htab : save_data_table fd = .ok d2 := by
    unfold save_data_table
    rw [he]
    simp only
    rw [← he, hd1]
    simp only
    rw [hi]
    simp only
    rw [← hi, hd2]
  have hdf : FinanceData.to_dataframe fd = .ok d2 := by
    unfold FinanceData.to_dataframe
    rw [he]
    simp only
    rw [← he, hd1]
    simp only
    rw [hi]
    simp only
    rw [← hi, hd2]
  refine ⟨d2, htab, hdf, ?_⟩
  intro k
  rw [hkeys2 k, hkeys1 k]
  simp
  tauto

/-- C3 witness: a one-month store, where the key-coverage hypothesis holds
trivially; the table's keys are Month, Budget and the record-0 keys. -/
theorem c3_witness :
    ∃ dt, save_data_table
        ⟨[Cell.str "1/2023"], [1000], [[("Extras", 200), ("Utilities", 50)]],
          [[("Salary", 5000)]]⟩ = .ok dt ∧
      FinanceData.to_dataframe
        ⟨[Cell.str "1/2023"], [1000], [[("Extras", 200), ("Utilities", 50)]],
          [[("Salary", 5000)]]⟩ = .ok dt ∧
      ∀ k, k ∈ dt.map Prod.fst ↔
        (k = "Month" ∨ k = "Budget"
          ∨ k ∈ [("Extras", (200:ℚ)), ("Utilities", (50:ℚ))].map Prod.fst
          ∨ k ∈ [("Salary", (5000:ℚ))].map Prod.fst) :=
  c3_record0_schema rfl rfl (by decide) (by decide)

/-- C4 counterexample: a structurally malformed CSV whose reader raises
`csv.Error` only after yielding one complete row.  `collect_monthly_data`
returns normally, but the Record Store does not retain the state it had
before the call: the fresh tracker ends up with one record, not empty. -/
theorem c4_counterexample :
    FinanceData.collect_monthly_data_csv FinanceData.init
        (.rows [[("Month", Cell.str "1/2023"), ("Budget", Cell.num 1000)]] true)
      = .ok ⟨[Cell.str "1/2023"], [1000], [[]], [[]]⟩ ∧
    (⟨[Cell.str "1/2023"], [1000], [[]], [[]]⟩ : FinanceData) ≠ FinanceData.init :=
  ⟨rfl, by decide⟩

/-- C4 (amended): a nonexistent import file is reported and leaves the store
exactly as it was (for a fresh tracker: empty), without raising; a malformed
CSV structure is likewise reported without raising, but the store keeps the
complete rows read before the error — starting from a fresh tracker, exactly
those rows (with equal collection lengths), not necessarily the pre-call
state. -/
theorem c4_error_recovery :
    (∀ st : FinanceData, FinanceData.collect_monthly_data_csv st .notFound = .ok st) ∧
    (∀ (rs : List Row) (st' : FinanceData) (err : Bool),
      processRows FinanceData.init rs = .ok st' →
        FinanceData.collect_monthly_data_csv FinanceData.init (.rows rs err) = .ok st' ∧
        st'.months.length = rs.length ∧ EqLens st') := by
  constructor
  · intro st
    rfl
  · intro rs st' err h
    refine ⟨by simp [FinanceData.collect_monthly_data_csv, h], ?_, ?_⟩
    · obtain ⟨recs, hrecs, hst⟩ := processRows_ok_iff.mp h
      obtain ⟨h1, _, _, _⟩ := foldl_pushRec_fields recs FinanceData.init
      rw [hst, h1]
      simp [FinanceData.init, mapOpt_some_length hrecs]
    · obtain ⟨recs, _, hst⟩ := processRows_ok_iff.mp h
      obtain ⟨h1, h2, h3, h4⟩ := foldl_pushRec_fields recs FinanceData.init
      rw [hst]
      refine ⟨?_, ?_, ?_⟩
      · rw [h2, h1]; simp [FinanceData.init]
      · rw [h3, h1]; simp [FinanceData.init]
      · rw [h4, h1]; simp [FinanceData.init]

/-- C4 witness: the missing-file case on a fresh tracker, and a malformed
file read as one good row before the `csv.Error`. -/
theorem c4_witness :
    (FinanceData.collect_monthly_data_csv FinanceData.init .notFound
      = .ok FinanceData.init) ∧
    (FinanceData.collect_monthly_data_csv FinanceData.init
        (.rows [[("Month", Cell.str "1/2023"), ("Budget", Cell.num 7)]] true)
      = .ok ⟨[Cell.str "1/2023"], [7], [[]], [[]]⟩ ∧
      (⟨[Cell.str "1/2023"], [7], [[]], [[]]⟩ : FinanceData).months.length = 1 ∧
      EqLens ⟨[Cell.str "1/2023"], [7], [[]], [[]]⟩) :=
  ⟨c4_error_recovery.1 FinanceData.init,
    c4_error_recovery.2 [[("Month", Cell.str "1/2023"), ("Budget", Cell.num 7)]]
      ⟨[Cell.str "1/2023"], [7], [[]], [[]]⟩ true rfl⟩

/-- C5 counterexample: a non-empty one-month store whose single expense
category is literally named "Month" — its months trivially all share record
0's key sets, so it satisfies the claim's hypothesis.  Exporting it overwrites
the `Month` column of the dict with the expense values, and re-importing the
file yields a different months sequence, refuting the round-trip claim as
stated (budgets happen to survive here). -/
theorem c5_counterexample :
    save_data ⟨[Cell.str "1/2023"], [7], [[("Month", 5)]], [[]]⟩
      = .ok (["Month", "Budget"], [[Cell.num 5, Cell.num 7]]) ∧
    reimport (["Month", "Budget"], [[Cell.num 5, Cell.num 7]])
      = .ok ⟨[Cell.num 5], [7], [[]], [[]]⟩ ∧
    ([Cell.num 5] : List Cell) ≠ [Cell.str "1/2023"] :=
  ⟨rfl, rfl, by decide⟩

/-- C5 (amended): for every Record Store satisfying the parallel-length
invariant whose months all have the same expense-category and income-source
key sets as record 0, and in which no record-0 category or source is named
`Month` or `Budget`, exporting with `save_data` and re-importing the file
into a fresh tracker reproduces the months sequence and the budgets
sequence exactly. -/
theorem c5_roundtrip {fd : FinanceData} {e0 i0 : List (String × ℚ)}
    {er ir : List (List (String × ℚ))}
    (he : fd.expenses_data = e0 :: er) (hi : fd.incomes_data = i0 :: ir)
    (hbl : fd.budgets_data.length = fd.months.length)
    (hel : fd.expenses_data.length = fd.months.length)
    (hil : fd.incomes_data.length = fd.months.length)
    (hsameE : ∀ es ∈ fd.expenses_data, ∀ k, k ∈ es.map Prod.fst ↔ k ∈ e0.map Prod.fst)
    (hsameI : ∀ es ∈ fd.incomes_data, ∀ k, k ∈ es.map Prod.fst ↔ k ∈ i0.map Prod.fst)
    (hnoM : "Month" ∉ e0.map Prod.fst ++ i0.map Prod.fst)
    (hnoB : "Budget" ∉ e0.map Prod.fst ++ i0.map Prod.fst) :
    ∃ f st, save_data fd = .ok f ∧ reimport f = .ok st ∧
      st.months = fd.months ∧ st.budgets_data = fd.budgets_data := by
  apply roundtrip_core he hi hbl hel hil
  · intro k hk
    refine ⟨?_, ?_, ?_⟩
    · rintro rfl
      exact hnoM (List.mem_append.mpr (Or.inl hk))
    · rintro rfl
      exact hnoB (List.mem_append.mpr (Or.inl hk))
    · intro es hes
      exact (hsameE es hes k).mpr hk
  · intro k hk
    refine ⟨?_, ?_, ?_⟩
    · rintro rfl
      exact hnoM (List.mem_append.mpr (Or.inr hk))
    · rintro rfl
      exact hnoB (List.mem_append.mpr (Or.inr hk))
    · intro es hes
      exact (hsameI es hes k).mpr hk

/-- C5 witness: a well-named one-month store round-trips its months and
budgets. -/
theorem c5_witness :
    ∃ f st, save_data ⟨[Cell.str "1/2023"], [1000],
        [[("Extras", 200), ("Utilities", 50)]], [[("Salary", 5000)]]⟩ = .ok f ∧
      reimport f = .ok st ∧
      st.months = (⟨[Cell.str "1/2023"], [1000],
        [[("Extras", 200), ("Utilities", 50)]], [[("Salary", 5000)]]⟩
          : FinanceData).months ∧
      st.budgets_data = (⟨[Cell.str "1/2023"], [1000],
        [[("Extras", 200), ("Utilities", 50)]], [[("Salary", 5000)]]⟩
          : FinanceData).budgets_data :=
  c5_roundtrip rfl rfl rfl rfl rfl
    (by intro es hes k; simp at hes; rw [hes])
    (by intro es hes k; simp at hes; rw [hes])
    (by decide) (by decide)

/-- C6: whenever the interactive path runs to completion from an empty store,
it produces exactly twelve records labelled `1/2023` … `12/2023`; every
record's expense keys are exactly `Extras`, `Utilities` and its income keys
exactly `Salary`, `Investments`; every stored value was accepted by
`_get_input` from the input stream — hence non-negative and the parse of a
stream token; moreover the store is exactly the fold of the sixty values
`_get_input` accepts from the stream in prompt order — the value accepted at
each prompt is stored at that prompt's slot (month `j`'s budget, `Extras`,
`Utilities`, `Salary`, `Investments` are accepted values `5j` … `5j+4`); and
`_get_input` rejects (re-prompts past) every non-numeric head token and every
negative numeric head token. -/
theorem c6_interactive {stream rest : List Cell} {st : FinanceData}
    (h : FinanceData.collect_monthly_data_manual FinanceData.init stream
      = .ok (st, rest)) :
    st.months = (List.range' 1 12).map (fun m => Cell.str (toString m ++ "/2023")) ∧
    st.budgets_data.length = 12 ∧ st.expenses_data.length = 12 ∧
    st.incomes_data.length = 12 ∧
    (∀ es ∈ st.expenses_data, es.map Prod.fst = ["Extras", "Utilities"]) ∧
    (∀ es ∈ st.incomes_data, es.map Prod.fst = ["Salary", "Investments"]) ∧
    (∀ b ∈ st.budgets_data, ValidVal stream b) ∧
    (∀ es ∈ st.expenses_data, ∀ kv ∈ es, ValidVal stream kv.2) ∧
    (∀ es ∈ st.incomes_data, ∀ kv ∈ es, ValidVal stream kv.2) ∧
    (∃ vals, takeAccepted 60 stream = some (vals, rest) ∧
      st = (recsOfVals (List.range' 1 12) vals).foldl pushRec FinanceData.init) ∧
    (∀ (c : Cell) (s : List Cell), pyFloat c = none →
      get_input (c :: s) = get_input s) ∧
    (∀ (c : Cell) (s : List Cell) (v : ℚ), pyFloat c = some v → v < 0 →
      get_input (c :: s) = get_input s) := by
  obtain ⟨recs, hfold, hlabs, hgoods, _⟩ := collectMonths_ok h
  obtain ⟨vals, hta, hfoldv⟩ := collectMonths_vals h
  obtain ⟨h1, h2, h3, h4⟩ := foldl_pushRec_fields recs FinanceData.init
  have hreclen : recs.length = 12 := by
    have := congrArg List.length hlabs
    simpa using this
  have h60 : (5 : Nat) * (List.range' 1 12).length = 60 := rfl
  rw [h60] at hta
  subst hfold
  refine ⟨?_, ?_, ?_, ?_, ?_, ?_, ?_, ?_, ?_, ⟨vals, hta, hfoldv⟩, ?_, ?_⟩
  · rw [h1]
    simpa [FinanceData.init] using hlabs
  · rw [h2]; simp [FinanceData.init, hreclen]
  · rw [h3]; simp [FinanceData.init, hreclen]
  · rw [h4]; simp [FinanceData.init, hreclen]
  · rw [h3]
    simp only [FinanceData.init, List.nil_append]
    intro es hes
    obtain ⟨rec, hrec, hreceq⟩ := List.mem_map.mp hes
    obtain ⟨_, ex, ut, sal, inv, hexp, _, _, _, _, _⟩ := hgoods rec hrec
    rw [← hreceq, hexp]
    rfl
  · rw [h4]
    simp only [FinanceData.init, List.nil_append]
    intro es hes
    obtain ⟨rec, hrec, hreceq⟩ := List.mem_map.mp hes
    obtain ⟨_, ex, ut, sal, inv, _, hincs, _, _, _, _⟩ := hgoods rec hrec
    rw [← hreceq, hincs]
    rfl
  · rw [h2]
    simp only [FinanceData.init, List.nil_append]
    intro b hb
    obtain ⟨rec, hrec, hreceq⟩ := List.mem_map.mp hb
    obtain ⟨hbv, _⟩ := hgoods rec hrec
    rw [← hreceq]
    exact hbv
  · rw [h3]
    simp only [FinanceData.init, List.nil_append]
    intro es hes kv hkv
    obtain ⟨rec, hrec, hreceq⟩ := List.mem_map.mp hes
    obtain ⟨_, ex, ut, sal, inv, hexp, _, hex, hut, _, _⟩ := hgoods rec hrec
    rw [← hreceq, hexp] at hkv
    rcases List.mem_cons.mp hkv with h1 | h2
    · rw [h1]; exact hex
    · simp at h2
      rw [h2]
      exact hut
  · rw [h4]
    simp only [FinanceData.init, List.nil_append]
    intro es hes kv hkv
    obtain ⟨rec, hrec, hreceq⟩ := List.mem_map.mp hes
    obtain ⟨_, ex, ut, sal, inv, _, hincs, _, _, hsal, hinv⟩ := hgoods rec hrec
    rw [← hreceq, hincs] at hkv
    rcases List.mem_cons.mp hkv with h1 | h2
    · rw [h1]; exact hsal
    · simp at h2
      rw [h2]
      exact hinv
  · intro c s hc
    rw [get_input, hc]
  · intro c s v hc hv
    rw [get_input, hc]
    dsimp only
    rw [if_neg (not_le.mpr hv)]

/-- C6 witness: a stream opening with a non-numeric token and a negative
token (both rejected at the first prompt) followed by twelve rounds of the
distinct prompt values 1000, 200, 50, 5000, 100; the theorem is instantiated
at its concrete result, where each accepted value sits at its own prompt's
slot. -/
theorem c6_witness :
    (⟨(List.range' 1 12).map (fun m => Cell.str (toString m ++ "/2023")),
      List.replicate 12 1000,
      List.replicate 12 [("Extras", 200), ("Utilities", 50)],
      List.replicate 12 [("Salary", 5000), ("Investments", 100)]⟩ : FinanceData).months
        = (List.range' 1 12).map (fun m => Cell.str (toString m ++ "/2023")) ∧
    (List.replicate 12 (1000:ℚ)).length = 12 ∧
    (List.replicate 12 [("Extras", (200:ℚ)), ("Utilities", (50:ℚ))]).length = 12 ∧
    (List.replicate 12 [("Salary", (5000:ℚ)), ("Investments", (100:ℚ))]).length = 12 ∧
    (∀ es ∈ List.replicate 12 [("Extras", (200:ℚ)), ("Utilities", (50:ℚ))],
      es.map Prod.fst = ["Extras", "Utilities"]) ∧
    (∀ es ∈ List.replicate 12 [("Salary", (5000:ℚ)), ("Investments", (100:ℚ))],
      es.map Prod.fst = ["Salary", "Investments"]) ∧
    (∀ b ∈ List.replicate 12 (1000:ℚ), ValidVal
      (Cell.str "x" :: Cell.num (-1) :: (List.replicate 12
        [Cell.num 1000, Cell.num 200, Cell.num 50, Cell.num 5000, Cell.num 100]).join) b) ∧
    (∀ es ∈ List.replicate 12 [("Extras", (200:ℚ)), ("Utilities", (50:ℚ))],
      ∀ kv ∈ es, ValidVal
        (Cell.str "x" :: Cell.num (-1) :: (List.replicate 12
          [Cell.num 1000, Cell.num 200, Cell.num 50, Cell.num 5000, Cell.num 100]).join)
        kv.2) ∧
    (∀ es ∈ List.replicate 12 [("Salary", (5000:ℚ)), ("Investments", (100:ℚ))],
      ∀ kv ∈ es, ValidVal
        (Cell.str "x" :: Cell.num (-1) :: (List.replicate 12
          [Cell.num 1000, Cell.num 200, Cell.num 50, Cell.num 5000, Cell.num 100]).join)
        kv.2) ∧
    (∃ vals, takeAccepted 60
        (Cell.str "x" :: Cell.num (-1) :: (List.replicate 12
          [Cell.num 1000, Cell.num 200, Cell.num 50, Cell.num 5000, Cell.num 100]).join)
        = some (vals, []) ∧
      (⟨(List.range' 1 12).map (fun m => Cell.str (toString m ++ "/2023")),
        List.replicate 12 1000,
        List.replicate 12 [("Extras", 200), ("Utilities", 50)],
        List.replicate 12 [("Salary", 5000), ("Investments", 100)]⟩ : FinanceData)
          = (recsOfVals (List.range' 1 12) vals).foldl pushRec FinanceData.init) ∧
    (∀ (c : Cell) (s : List Cell), pyFloat c = none →
      get_input (c :: s) = get_input s) ∧
    (∀ (c : Cell) (s : List Cell) (v : ℚ), pyFloat c = some v → v < 0 →
      get_input (c :: s) = get_input s) :=
  @c6_interactive
    (Cell.str "x" :: Cell.num (-1) :: (List.replicate 12
      [Cell.num 1000, Cell.num 200, Cell.num 50, Cell.num 5000, Cell.num 100]).join) []
    ⟨(List.range' 1 12).map (fun m => Cell.str (toString m ++ "/2023")),
      List.replicate 12 1000,
      List.replicate 12 [("Extras", 200), ("Utilities", 50)],
      List.replicate 12 [("Salary", 5000), ("Investments", 100)]⟩ rfl

/-- C7 counterexample: a store whose Budget column holds the pairwise-distinct
values 1, 2, 3 and whose single expense column holds 10, 20, 30.  The claim
says such all-distinct columns report "No mode"; the analysis in fact reports
the smallest value of each column (pandas `mode` of an all-distinct non-empty
column is all its values in ascending order, never empty). -/
theorem c7_counterexample :
    analysisModes ⟨[Cell.str "1", Cell.str "2", Cell.str "3"], [1, 2, 3],
        [[("E", 10)], [("E", 20)], [("E", 30)]], [[], [], []]⟩
      = .ok [("Budget", some 1), ("E", some 10)] ∧
    ([(1:ℚ), 2, 3].Nodup ∧ [(10:ℚ), 20, 30].Nodup) ∧
    (some (1:ℚ) ≠ none ∧ some (10:ℚ) ≠ none) :=
  ⟨rfl, by decide, by decide⟩

/-- C7 (amended): the analysis reports, for every non-`Month` column of the
projected table, `modeReport` of the column's values; for every non-empty
value list — in particular one with all values distinct — the report is
`some` of the first mode in ascending sort order (a most frequent value that
is least among the most frequent values), never `'No mode'`; `'No mode'` can
only arise from an empty column. -/
theorem c7_mode_first_sorted {fd : FinanceData} {dt : List (String × List Cell)}
    (hdf : fd.to_dataframe = .ok dt) :
    analysisModes fd = .ok ((dt.filter (fun kv => !(kv.1 == "Month"))).map
        (fun kv => (kv.1, modeReport (ratsOf kv.2)))) ∧
    ∀ xs : List ℚ, xs ≠ [] → ∃ m, modeReport xs = some m ∧ m ∈ xs ∧
      (∀ v ∈ xs, countQ xs v ≤ countQ xs m) ∧
      (∀ v ∈ xs, countQ xs v = countQ xs m → m ≤ v) := by
  constructor
  · simp [analysisModes, hdf, Except.map]
  · intro xs hxs
    exact modeReport_spec hxs

/-- C7 witness: instantiated at a concrete store and at the spec's example
column `[1, 1, 2, 3]`. -/
theorem c7_witness :
    (analysisModes ⟨[Cell.str "1", Cell.str "2", Cell.str "3"], [1, 2, 3],
        [[("E", 10)], [("E", 20)], [("E", 30)]], [[], [], []]⟩
      = .ok ((([("Month", [Cell.str "1", Cell.str "2", Cell.str "3"]),
          ("Budget", [Cell.num 1, Cell.num 2, Cell.num 3]),
          ("E", [Cell.num 10, Cell.num 20, Cell.num 30])]).filter
            (fun kv => !(kv.1 == "Month"))).map
            (fun kv => (kv.1, modeReport (ratsOf kv.2)))) ∧
      ∀ xs : List ℚ, xs ≠ [] → ∃ m, modeReport xs = some m ∧ m ∈ xs ∧
        (∀ v ∈ xs, countQ xs v ≤ countQ xs m) ∧
        (∀ v ∈ xs, countQ xs v = countQ xs m → m ≤ v)) ∧
    ([(1:ℚ), 1, 2, 3] ≠ []) ∧ modeReport [(1:ℚ), 1, 2, 3] = some 1 :=
  ⟨c7_mode_first_sorted rfl, by decide, rfl⟩
